import Mathlib

/-!
Shallow embedding of `src/code_templates/nsp_dumper_usb.c` — the `nspDump`
routine of nxdumptool's NSP dumper code template, which assembles a PFS0
container (NSP) from a title's content archives (NCAs) plus generated
metadata, and streams it over USB in two passes (provisional header first,
finalized header re-sent last).

The collaborators called by `nspDump` (pfs.c, nca.c, cnmt.c, usb.c, cert.c,
tik.c, …) are not part of this source snapshot.  Where their behaviour
decides a claim they are modelled from the spec (doc comments starting with
`Modelled from the spec:`); elsewhere they are kept abstract as
environment-supplied functions, so every theorem below holds for all
behaviours of the absent collaborators.
-/

namespace NspDump

/-- Byte values are modelled as naturals; the pipeline only moves bytes
around, it never computes on them. -/
abbrev Byte := Nat

/-- NcmContentType values used by the dumper. -/
inductive ContentType where
  | Meta
  | Program
  | Control
  | LegalInformation
  | Other
deriving DecidableEq, Repr

/-- One record of `title_info->content_infos`. -/
structure ContentInfo where
  ctype : ContentType
deriving DecidableEq, Repr

/-- NcmStorageId as used by nspDump (gamecard vs emmc vs sd card). -/
inductive StorageId where
  | gameCard
  | builtInUser
  | sdCard
deriving DecidableEq, Repr

/-- The `Ticket` filled in by the nca initialization calls.  `data = []`
models `tik.size == 0` (no ticket material for the title). -/
structure Tik where
  data : List Byte
  rightsIdStr : String
  personalized : Bool
  issuer : String
deriving DecidableEq, Repr

/-- The four dump option switches, read once at the start of nspDump. -/
structure Opts where
  setDownloadType : Bool
  removeConsoleData : Bool
  removeTitlekeyCrypto : Bool
  changeAcidRsa : Bool
deriving DecidableEq, Repr

/-- Result of `ncaInitializeContext` for one content: provisional content id
string, content size, rights/titlekey state, plus the content reader
(`ncaReadContentFile`) and the re-encrypted header writer
(`ncaWriteEncryptedHeaderDataToMemoryBuffer`), the latter parametrised by the
two option-driven header transformations (`ncaSetDownloadDistributionType`,
`ncaRemoveTitlekeyCrypto`) since those rewrite header bytes.  The writer
returns the patched buffer together with the updated `header_written` flag. -/
structure NcaInit where
  id0 : String
  size : Nat
  rightsAvail : Bool
  tkRetrieved : Bool
  read : Nat → Nat → List Byte
  writeHeader : Bool → Bool → Nat → List Byte → List Byte × Bool

/-- The content-type context attached to an initialized NCA
(`nca_ctx->content_type_ctx`): cnmt context for the meta NCA, program info /
nacp / legal info contexts for the others, carrying their generated
authoring-tool blobs (and, for program, the ACID patch writer). -/
inductive TypeCtx where
  | cnmt : TypeCtx
  | program (xml : List Byte) (patch : Nat → List Byte → List Byte) : TypeCtx
  | control (icons : List (String × List Byte)) (xml : List Byte) : TypeCtx
  | legal (xml : List Byte) : TypeCtx

/-- One `NcaContext` slot of the calloc'd `nca_ctx` array, restricted to the
fields nspDump reads or writes. -/
structure NcaCtx where
  ctype : ContentType
  idStr : String
  size : Nat
  rightsAvail : Bool
  tkRetrieved : Bool
  read : Nat → Nat → List Byte
  writeHeader : Bool → Bool → Nat → List Byte → List Byte × Bool
  processed : Bool
  headerModified : Bool
  typeCtx : Option TypeCtx
  patchFlag : Bool
  dataIdx : Nat

/-- A zeroed `NcaContext` slot, as produced by `calloc`. -/
def defaultCtx : NcaCtx :=
  { ctype := .Other, idStr := "", size := 0, rightsAvail := false, tkRetrieved := false
    read := fun _ _ => [], writeHeader := fun _ _ _ buf => (buf, false)
    processed := false, headerModified := false, typeCtx := none
    patchFlag := false, dataIdx := 0 }

instance : Inhabited NcaCtx := ⟨defaultCtx⟩

/-- The environment: the selected title, and the behaviour of every absent
collaborator invoked by nspDump. -/
structure Env where
  contents : List ContentInfo
  storage : StorageId
  path : String
  initNca : Nat → NcaInit
  tik : Tik
  sha : List Byte → List Byte
  cnmtXml : List String → List Byte
  programXml : Nat → List Byte
  programPatch : Nat → Nat → List Byte → List Byte
  nacpIcons : Nat → List (String × List Byte)
  nacpXml : Nat → List Byte
  legalXml : Nat → List Byte
  cnmtPatch : List (String × List Byte) → Nat → List Byte → List Byte
  convert : Tik → Tik × List Byte
  certGC : String → List Byte
  certIssuer : String → List Byte
  usbReady : Nat → Bool

/-- Lowercase hex digit of a value below 16 (`sprintf %02x`). -/
def hexChar (n : Nat) : Char :=
  if n < 10 then Char.ofNat (48 + n) else Char.ofNat (87 + n)

/-- Two lowercase hex characters of one byte. -/
def byteHex (b : Nat) : List Char := [hexChar (b / 16 % 16), hexChar (b % 16)]

/-- Modelled from the spec: identifiers are constant-width lowercase-hex
renderings of raw identifier bytes (`utilsGenerateHexStringFromData` in the
absent utils.c); each byte yields exactly two characters. -/
def hexOfBytes (bs : List Byte) : String := String.mk ((bs.map byteHex).flatten)

/-- Content id derivation of `ncaUpdateContentIdAndHash` (absent nca.c):
the finalized content id is the first half (16 bytes) of the SHA-256 hash,
rendered as a 32-character hex string. -/
def idOfHash (hash : List Byte) : String := hexOfBytes (hash.take 16)

/-! ### PFS0 file context (pfs.c is absent: modelled from the spec, §4.3/§6) -/

/-- One entry of the `PartitionFileSystemFileContext` table.  Names follow
the convention `<identifier><suffix>`; the identifier part is what
`pfsUpdateEntryNameFromFileContext` replaces later, so it is kept separate. -/
structure PfsEntry where
  idPart : String
  sfx : String
  size : Nat
deriving DecidableEq, Repr

instance : Inhabited PfsEntry := ⟨⟨"", "", 0⟩⟩

/-- The `PartitionFileSystemFileContext`: ordered entry table plus the
accumulated payload size (`fs_size`). -/
structure PfsCtx where
  entries : List PfsEntry
  fs_size : Nat
deriving DecidableEq, Repr

/-- `pfsInitializeFileContext`. -/
def pfsInit : PfsCtx := ⟨[], 0⟩

/-- Modelled from the spec: `pfsAddEntryInformationToFileContext` appends a
named, sized entry, accumulates the payload size, and reports the entry's
table index (the out pointer used for `content_type_ctx_data_idx`). -/
def pfsAddEntry (c : PfsCtx) (idp sfx : String) (sz : Nat) : PfsCtx × Nat :=
  (⟨c.entries ++ [⟨idp, sfx, sz⟩], c.fs_size + sz⟩, c.entries.length)

/-- Modelled from the spec: `pfsUpdateEntryNameFromFileContext` replaces only
the identifier part of the name of the entry at the given index (the new
content id string is written over the old fixed-width identifier; extension
and declared size are untouched). -/
def pfsRename (c : PfsCtx) (i : Nat) (newId : String) : PfsCtx :=
  ⟨c.entries.set i { c.entries.getD i default with idPart := newId }, c.fs_size⟩

def entryName (en : PfsEntry) : String := en.idPart ++ en.sfx

/-- `pfsGetEntryNameByIndexFromFileContext`. -/
def pfsEntryNameAt (c : PfsCtx) (i : Nat) : String := entryName (c.entries.getD i default)

/-- PFS0 fixed preamble size. -/
def PFS0_BASE_HEADER_SIZE : Nat := 0x10

/-- PFS0 fixed-width entry record size. -/
def PFS0_ENTRY_SIZE : Nat := 0x18

/-- Round up to a multiple of an alignment. -/
def padUp (x a : Nat) : Nat := (x + a - 1) / a * a

/-- Modelled from the spec: `pfsWriteFileContextHeaderToMemoryBuffer`
serializes a header of size `fixed preamble + entry_count * entry record +
sum of (name length + 1)` (NUL-terminated name table), padded to the
format's alignment; the size depends only on the entry count and the name
lengths (§4.3). -/
def pfsHeaderSize (c : PfsCtx) : Nat :=
  padUp (PFS0_BASE_HEADER_SIZE + c.entries.length * PFS0_ENTRY_SIZE
    + (c.entries.map (fun en => (entryName en).length + 1)).sum) 0x20

/-! ### Pass-1 context construction (lines 166-306) -/

/-- Condition of line 207: the NCA cannot be decrypted (rights id present but
no titlekey), so nspDump skips all further per-unit processing for it. -/
def skipNca (d : NcaInit) : Bool := d.rightsAvail && !d.tkRetrieved

/-- Pass-1 processing of one non-meta content (lines 196-305): initialize the
NCA context; if its fs data is inaccessible, stop there (lines 205-211);
otherwise create/record the content-type context and its authoring-tool blob,
generate the ACID patch when `change_acid_rsa` is set, and re-encrypt the NCA
header. -/
def mkCtx (e : Env) (opts : Opts) (i : Nat) (ct : ContentType) : NcaCtx :=
  let d := e.initNca i
  let base : NcaCtx :=
    { ctype := ct, idStr := d.id0, size := d.size, rightsAvail := d.rightsAvail
      tkRetrieved := d.tkRetrieved, read := d.read, writeHeader := d.writeHeader
      processed := false, headerModified := false, typeCtx := none
      patchFlag := false, dataIdx := 0 }
  if skipNca d then base
  else
    let tc : Option TypeCtx :=
      match ct with
      | .Program => some (.program (e.programXml i) (e.programPatch i))
      | .Control => some (.control (e.nacpIcons i) (e.nacpXml i))
      | .LegalInformation => some (.legal (e.legalXml i))
      | _ => none
    let pf : Bool :=
      match ct with
      | .Program => opts.changeAcidRsa
      | _ => false
    { base with processed := true, headerModified := true, typeCtx := tc, patchFlag := pf }

/-- Index of the meta content info
(`titleGetContentInfoByTypeAndIdOffset(title_info, NcmContentType_Meta, 0)`). -/
def metaIdx (e : Env) : Nat := e.contents.findIdx (fun c => decide (c.ctype = .Meta))

/-- The meta NCA context: initialized separately (lines 167-184) and given the
cnmt context; its header is only re-encrypted during pass 2 (line 489). -/
def mkMetaCtx (e : Env) : NcaCtx :=
  let d := e.initNca (metaIdx e)
  { ctype := .Meta, idStr := d.id0, size := d.size, rightsAvail := d.rightsAvail
    tkRetrieved := d.tkRetrieved, read := d.read, writeHeader := d.writeHeader
    processed := true, headerModified := false, typeCtx := some .cnmt
    patchFlag := false, dataIdx := 0 }

/-- Original indices and types of the non-meta contents, in content-info
order (the pass-1 loop of line 190 skips every meta content). -/
def nonMetasAux : Nat → List ContentInfo → List (Nat × ContentType)
  | _, [] => []
  | i, c :: cs =>
    if c.ctype = .Meta then nonMetasAux (i + 1) cs
    else (i, c.ctype) :: nonMetasAux (i + 1) cs

def nonMetas (e : Env) : List (Nat × ContentType) := nonMetasAux 0 e.contents

/-- The `nca_ctx` array after pass 1: non-meta contexts fill slots 0, 1, …
in content-info order (counter `j`), the meta context sits in the last slot
(line 167), and any slots in between stay zeroed.  With at least one meta
content this is exactly the layout the C code produces. -/
def buildCtxs (e : Env) (opts : Opts) : List NcaCtx :=
  let nm := (nonMetas e).map (fun p => mkCtx e opts p.1 p.2)
  nm ++ List.replicate (e.contents.length - 1 - nm.length) defaultCtx ++ [mkMetaCtx e]

/-! ### Ticket / certificate resolution (lines 316-341) -/

/-- Certificate-chain resolution: if `remove_console_data` is set and the
ticket is personalized, convert it to a common ticket and take the freshly
generated chain from the conversion; otherwise fetch a raw chain from the
gamecard by rights id when the title comes from the gamecard, else generate
one by signature issuer. -/
def resolveCert (e : Env) (opts : Opts) : Tik × List Byte :=
  if opts.removeConsoleData && e.tik.personalized then e.convert e.tik
  else
    (e.tik,
      match e.storage with
      | .gameCard => e.certGC e.tik.rightsIdStr
      | _ => e.certIssuer e.tik.issuer)

/-! ### Entry-table construction (lines 343-433) -/

/-- Entry name suffix for an NCA entry (line 347). -/
def ncaSfx (ct : ContentType) : String := if ct = .Meta then ".cnmt.nca" else ".nca"

/-- Lines 344-354: one entry per `nca_ctx` slot, named from its (still
provisional) content id string and sized by its content size. -/
def addNcaEntries (ctxs : List NcaCtx) (c : PfsCtx) : PfsCtx :=
  ctxs.foldl (fun acc ctx => (pfsAddEntry acc ctx.idStr (ncaSfx ctx.ctype) ctx.size).1) c

/-- Lines 357-362: the cnmt xml entry, sized by the first-pass xml and
recording its index into the meta context's `content_type_ctx_data_idx`. -/
def addXmlEntry (xml1 : List Byte) (ctxs : List NcaCtx) (c : PfsCtx) :
    PfsCtx × List NcaCtx :=
  let n := ctxs.length
  let meta := ctxs.getD (n - 1) defaultCtx
  let r := pfsAddEntry c meta.idStr ".cnmt.xml" xml1.length
  (r.1, ctxs.set (n - 1) { meta with dataIdx := r.2 })

/-- Lines 365-415 for one `nca_ctx`: program and legal info contexts
contribute one xml entry each (index recorded); a nacp context contributes
one entry per icon (index of the first icon recorded) plus its xml entry;
slots without a context contribute nothing.  Returns the grown pfs context
and the updated `nca_ctx`. -/
def addCtxDataOne (c : PfsCtx) (ctx : NcaCtx) : PfsCtx × NcaCtx :=
  match ctx.typeCtx with
  | some (.program xml _) =>
    let r := pfsAddEntry c ctx.idStr ".programinfo.xml" xml.length
    (r.1, { ctx with dataIdx := r.2 })
  | some (.control icons xml) =>
    let base := c.entries.length
    let c1 := icons.foldl
      (fun acc ic => (pfsAddEntry acc ctx.idStr (".nx." ++ ic.1 ++ ".jpg") ic.2.length).1) c
    let c2 := (pfsAddEntry c1 ctx.idStr ".nacp.xml" xml.length).1
    (c2, if icons.isEmpty then ctx else { ctx with dataIdx := base })
  | some (.legal xml) =>
    let r := pfsAddEntry c ctx.idStr ".legalinfo.xml" xml.length
    (r.1, { ctx with dataIdx := r.2 })
  | _ => (c, ctx)

/-- One step of the ctx-data entry loop, acting on slot `i`. -/
def addCtxDataStep (st : PfsCtx × List NcaCtx) (i : Nat) : PfsCtx × List NcaCtx :=
  let r := addCtxDataOne st.1 (st.2.getD i defaultCtx)
  (r.1, st.2.set i r.2)

/-- The loop of line 365 runs over slots `0 … content_count - 2`. -/
def addCtxDataEntries (n : Nat) (st : PfsCtx × List NcaCtx) : PfsCtx × List NcaCtx :=
  (List.range (n - 1)).foldl addCtxDataStep st

/-- Lines 417-433: the ticket and certificate entries, appended last, named
from the ticket's rights id string. -/
def addTikCert (retrieve : Bool) (t : Tik) (cert : List Byte) (c : PfsCtx) : PfsCtx :=
  if retrieve then
    let c1 := (pfsAddEntry c t.rightsIdStr ".tik" t.data.length).1
    (pfsAddEntry c1 t.rightsIdStr ".cert" cert.length).1
  else c

/-! ### USB connection poll (lines 447-466) -/

/-- One tick of the poll loop of line 450: give up once 10 seconds have
elapsed, succeed as soon as `usbIsReady` reports true, otherwise sleep one
second and retry.  `utilsSleep(1)` is the only suspension, so elapsed seconds
are modelled as the iteration count; the fuel argument (always sufficient,
since the loop exits by `t = 10` at the latest) keeps the recursion
structural. -/
def pollLoopAux (ready : Nat → Bool) : Nat → Nat → Bool
  | 0, _ => false
  | fuel + 1, t =>
    if 10 ≤ t then false
    else if ready t then true
    else pollLoopAux ready fuel (t + 1)

/-- The whole poll loop, started at elapsed time 0.  Eleven units of fuel
always outlast the 10-second timeout. -/
def pollUsb (ready : Nat → Bool) : Bool := pollLoopAux ready 11 0

/-! ### Pass-2 streaming (lines 481-578) -/

/-- The dump block size (`#define BLOCK_SIZE 0x800000`). -/
def BLOCK_SIZE : Nat := 0x800000

/-- What the block loop of line 504 needs about the current NCA: size,
reader, header writer (options already applied), content-type patch writer,
the `content_type_ctx_patch` flag and the initial `dirty_header` value of
line 495. -/
structure StreamCfg where
  size : Nat
  read : Nat → Nat → List Byte
  writeHeader : Nat → List Byte → List Byte × Bool
  typePatch : Nat → List Byte → List Byte
  hasPatch : Bool
  dirty0 : Bool

/-- State carried across block iterations: the bytes fed to the running
SHA-256 context so far (`sha256ContextUpdate` accumulates exactly its input
stream), the blocks forwarded to `usbSendFileData`, the `dirty_header` flag
and the NCA's `header_written` flag. -/
structure StreamSt where
  acc : List Byte
  sent : List (List Byte)
  dirty : Bool
  hw : Bool
deriving DecidableEq, Repr

/-- One iteration of the block loop (lines 504-557): shrink the final block,
read the plaintext chunk, and — only while the header is dirty — overwrite
the re-encrypted header bytes (unless already fully written) and then the
content-type context patch bytes in the buffer; afterwards update the running
hash with the buffer and forward the buffer to the transport.  Line 545
recomputes `dirty_header`. -/
def blockStep (u : StreamCfg) (blk : Nat) (st : StreamSt) (offset : Nat) : StreamSt :=
  let len := min blk (u.size - offset)
  let raw := u.read offset len
  if st.dirty then
    let p := if st.hw then (raw, st.hw) else u.writeHeader offset raw
    let buf := if u.hasPatch then u.typePatch offset p.1 else p.1
    { acc := st.acc ++ buf, sent := st.sent ++ [buf], dirty := !p.2 || u.hasPatch, hw := p.2 }
  else
    { acc := st.acc ++ raw, sent := st.sent ++ [raw], dirty := st.dirty, hw := st.hw }

/-- Block offsets visited by `for (offset = 0; offset < size; offset += blksize)`. -/
def blockOffsets (size blk : Nat) : List Nat :=
  (List.range ((size + blk - 1) / blk)).map (fun k => k * blk)

/-- The whole per-NCA block loop. -/
def streamUnit (u : StreamCfg) (blk : Nat) : StreamSt :=
  (blockOffsets u.size blk).foldl (blockStep u blk) ⟨[], [], u.dirty0, false⟩

/-- Line 489: before streaming the meta NCA, generate the cnmt patch
(setting `content_type_ctx_patch`) and re-encrypt its header. -/
def metaAdjust (ctx : NcaCtx) : NcaCtx :=
  if ctx.ctype = .Meta then { ctx with patchFlag := true, headerModified := true } else ctx

/-- Modelled from the spec: `ncaIsHeaderDirty` reports whether unread
re-encrypted header bytes or pending patches remain (§4.1); at loop entry the
header has not been written yet, so this is `headerModified || patchFlag`. -/
def mkStreamCfg (e : Env) (opts : Opts) (ctx : NcaCtx)
    (upds : List (String × List Byte)) : StreamCfg :=
  { size := ctx.size
    read := ctx.read
    writeHeader := fun off buf => ctx.writeHeader opts.setDownloadType opts.removeTitlekeyCrypto off buf
    typePatch := fun off buf =>
      match ctx.ctype, ctx.typeCtx with
      | .Meta, _ => e.cnmtPatch upds off buf
      | .Program, some (.program _ p) => p off buf
      | _, _ => buf
    hasPatch := ctx.patchFlag
    dirty0 := ctx.headerModified || ctx.patchFlag }

/-- Everything recorded about one NCA's trip through the pass-2 loop: the
name/size announced to the transport, the blocks forwarded to it, the final
accumulated SHA-256 hash and the finalized content id. -/
structure UnitResult where
  idx : Nat
  announcedName : String
  announcedSize : Nat
  sent : List (List Byte)
  finalHash : List Byte
  finalId : String
deriving DecidableEq, Repr

instance : Inhabited UnitResult := ⟨⟨0, "", 0, [], [], ""⟩⟩

/-- Pass-2 outcome for one NCA slot, as a function of its context, the entry
name announced for it, and the cnmt content updates accumulated so far
(`cnmtUpdateContentInfo` applications, which feed the meta NCA's patch). -/
def unitOutcome (e : Env) (opts : Opts) (blk : Nat) (i : Nat) (ctx0 : NcaCtx)
    (name : String) (upds : List (String × List Byte)) : UnitResult :=
  let ctx1 := metaAdjust ctx0
  let s := streamUnit (mkStreamCfg e opts ctx1 upds) blk
  let hash := e.sha s.acc
  ⟨i, name, ctx1.size, s.sent, hash, idOfHash hash⟩

/-- State of the pass-2 NCA loop: the pfs context (entry names being
finalized), the `nca_ctx` array (content ids being finalized), the per-unit
records, and the cnmt content updates so far. -/
structure P2State where
  pfs : PfsCtx
  ctxs : List NcaCtx
  units : List UnitResult
  upds : List (String × List Byte)

/-- One iteration of the pass-2 NCA loop (lines 481-578): announce the
entry's current name and size, stream the blocks, derive the final content id
from the accumulated hash (`ncaUpdateContentIdAndHash`), feed it to the cnmt
context (`cnmtUpdateContentInfo`) and rename the pfs entry. -/
def processUnit (e : Env) (opts : Opts) (blk : Nat) (st : P2State) (i : Nat) : P2State :=
  let ctx0 := st.ctxs.getD i defaultCtx
  let r := unitOutcome e opts blk i ctx0 (pfsEntryNameAt st.pfs i) st.upds
  { pfs := pfsRename st.pfs i r.finalId
    ctxs := st.ctxs.set i { metaAdjust ctx0 with idStr := r.finalId }
    units := st.units ++ [r]
    upds := st.upds ++ [(r.finalId, r.finalHash)] }

/-! ### Transport trace -/

/-- Calls issued to the USB transport, in order. -/
inductive UsbEvent where
  | announceNsp (path : String) (totalSize : Nat) (headerSize : Nat)
  | announceFile (name : String) (size : Nat)
  | sendData (bytes : List Byte)
  | sendNspHeader (size : Nat)
deriving DecidableEq, Repr

/-- Internal events instrumented for auditing: cnmt xml generations (with the
content id strings passed in) and ticket/certificate resolutions. -/
inductive LogEvent where
  | genCnmtXml (ids : List String)
  | resolveTikCert
deriving DecidableEq, Repr

/-- Transport events produced for one NCA: its announce followed by its data
blocks (lines 498, 552). -/
def unitTrace (u : UnitResult) : List UsbEvent :=
  .announceFile u.announcedName u.announcedSize :: u.sent.map .sendData

/-- Checks whether a log event is a cnmt xml generation. -/
def isGenXml : LogEvent → Bool
  | .genCnmtXml _ => true
  | .resolveTikCert => false

/-! ### Content-type context data sends (lines 604-681) -/

/-- Announce the entry at an index under its current name, send an xml blob,
and rename the entry to the owning NCA's finalized content id. -/
def ctxDataSend1 (st : PfsCtx × List UsbEvent) (idx : Nat) (xml : List Byte)
    (newId : String) : PfsCtx × List UsbEvent :=
  (pfsRename st.1 idx newId,
    st.2 ++ [.announceFile (pfsEntryNameAt st.1 idx) xml.length, .sendData xml])

/-- The loop body of line 605 for one `nca_ctx`: nothing for slots without a
content-type context; for a nacp context first each icon is sent and renamed
at `data_idx++`, then the xml at the final `data_idx`; program / legal info
contexts send just their xml at their recorded index. -/
def ctxDataSendOne (ctx : NcaCtx) (st : PfsCtx × List UsbEvent) : PfsCtx × List UsbEvent :=
  match ctx.typeCtx with
  | some (.program xml _) => ctxDataSend1 st ctx.dataIdx xml ctx.idStr
  | some (.legal xml) => ctxDataSend1 st ctx.dataIdx xml ctx.idStr
  | some (.control icons xml) =>
    let r := icons.foldl
      (fun a ic =>
        ((pfsRename a.1.1 a.2 ctx.idStr,
          a.1.2 ++ [.announceFile (pfsEntryNameAt a.1.1 a.2) ic.2.length, .sendData ic.2]),
          a.2 + 1))
      ((st.1, st.2), ctx.dataIdx)
    ctxDataSend1 r.1 r.2 xml ctx.idStr
  | _ => st

/-- One iteration of the loop of line 605, acting on slot `i`. -/
def ctxDataStep (ctxs : List NcaCtx) (st : PfsCtx × List UsbEvent) (i : Nat) :
    PfsCtx × List UsbEvent :=
  ctxDataSendOne (ctxs.getD i defaultCtx) st

/-! ### The whole dump routine -/

/-- Everything observable about one `nspDump` run. -/
structure DumpResult where
  ok : Bool
  usbConn : Bool
  ctxs0 : List NcaCtx
  xml1 : List Byte
  retrieve : Bool
  tikFinal : Tik
  certChain : List Byte
  pfs1 : PfsCtx
  ctxs1 : List NcaCtx
  headerSize1 : Nat
  nspSize : Nat
  units : List UnitResult
  pfsU : PfsCtx
  ctxsU : List NcaCtx
  xml2 : List Byte
  pfs2 : PfsCtx
  headerSize2 : Nat
  trace : List UsbEvent
  log : List LogEvent

/-- Result of a run that aborted before doing anything observable. -/
def emptyResult : DumpResult :=
  { ok := false, usbConn := false, ctxs0 := [], xml1 := [], retrieve := false
    tikFinal := ⟨[], "", false, ""⟩, certChain := [], pfs1 := pfsInit, ctxs1 := []
    headerSize1 := 0, nspSize := 0, units := [], pfsU := pfsInit, ctxsU := []
    xml2 := [], pfs2 := pfsInit, headerSize2 := 0, trace := [], log := [] }

/-- Line 66 plus the meta lookup of lines 169-174: the run can only proceed
with a nonempty content list containing a meta content. -/
def hasMetaB (e : Env) : Bool := e.contents.any fun c => decide (c.ctype = .Meta)

/-- Line 316: `retrieve_tik_cert = (!remove_titlekey_crypto && tik.size > 0)`. -/
def retrieveOf (e : Env) (o : Opts) : Bool :=
  !o.removeTitlekeyCrypto && decide (0 < e.tik.data.length)

/-- The ticket and certificate chain after lines 316-341 (`tik` unchanged and
no chain fetched when no resolution happens). -/
def rcOf (e : Env) (o : Opts) : Tik × List Byte :=
  if retrieveOf e o then resolveCert e o else (e.tik, [])

/-- The provisional content id strings passed to the first cnmt xml
generation (line 310). -/
def ids0Of (e : Env) (o : Opts) : List String := (buildCtxs e o).map (fun c => c.idStr)

/-- The first-pass cnmt xml (line 310), generated only for its size. -/
def xml1Of (e : Env) (o : Opts) : List Byte := e.cnmtXml (ids0Of e o)

/-- The pfs context and `nca_ctx` array after the nca, cnmt-xml and
content-type-ctx-data entry additions (lines 343-415). -/
def pfsAfterAdds (e : Env) (o : Opts) : PfsCtx × List NcaCtx :=
  let ctxs0 := buildCtxs e o
  let pc2 := addXmlEntry (xml1Of e o) ctxs0 (addNcaEntries ctxs0 pfsInit)
  addCtxDataEntries e.contents.length (pc2.1, pc2.2)

/-- The pfs context at the first header materialization (line 436). -/
def pfs1Of (e : Env) (o : Opts) : PfsCtx :=
  addTikCert (retrieveOf e o) (rcOf e o).1 (rcOf e o).2 (pfsAfterAdds e o).1

/-- The pass-2 NCA loop over slots `0 … k-1`, from a given pfs context and
`nca_ctx` array. -/
def p2Fold (e : Env) (o : Opts) (blk : Nat) (c0 : PfsCtx) (x0 : List NcaCtx) (k : Nat) :
    P2State :=
  (List.range k).foldl (processUnit e o blk) ⟨c0, x0, [], []⟩

/-- The state after the pass-2 NCA loop (lines 481-578). -/
def p2Of (e : Env) (o : Opts) : P2State :=
  p2Fold e o BLOCK_SIZE (pfs1Of e o) (pfsAfterAdds e o).2 e.contents.length

/-- The finalized content id strings passed to the second cnmt xml
generation (line 581). -/
def idsFOf (e : Env) (o : Opts) : List String := (p2Of e o).ctxs.map (fun c => c.idStr)

/-- The second-pass cnmt xml (line 581), the one whose bytes are sent. -/
def xml2Of (e : Env) (o : Opts) : List Byte := e.cnmtXml (idsFOf e o)

/-- The meta NCA context after pass 2 (finalized id, recorded xml entry index). -/
def metaFinal (e : Env) (o : Opts) : NcaCtx :=
  (p2Of e o).ctxs.getD (e.contents.length - 1) defaultCtx

/-- The pfs context after the cnmt xml entry rename (line 598). -/
def pfsAfterXml (e : Env) (o : Opts) : PfsCtx :=
  pfsRename (p2Of e o).pfs (metaFinal e o).dataIdx (metaFinal e o).idStr

/-- Transport events of the cnmt xml send (lines 588-595). -/
def xmlTraceOf (e : Env) (o : Opts) : List UsbEvent :=
  [.announceFile (pfsEntryNameAt (p2Of e o).pfs (metaFinal e o).dataIdx) (xml2Of e o).length,
    .sendData (xml2Of e o)]

/-- The pfs context and transport events after the content-type ctx data
sends (lines 604-681). -/
def gOf (e : Env) (o : Opts) : PfsCtx × List UsbEvent :=
  (List.range (e.contents.length - 1)).foldl (ctxDataStep (p2Of e o).ctxs) (pfsAfterXml e o, [])

/-- The pfs context at the second header materialization (line 707). -/
def pfs2Of (e : Env) (o : Opts) : PfsCtx := (gOf e o).1

/-- Transport events of the ticket and certificate sends (lines 683-704). -/
def tikTraceOf (e : Env) (o : Opts) : List UsbEvent :=
  if retrieveOf e o then
    [.announceFile (pfsEntryNameAt (pfs2Of e o) ((pfs2Of e o).entries.length - 2))
        (rcOf e o).1.data.length,
      .sendData (rcOf e o).1.data,
      .announceFile (pfsEntryNameAt (pfs2Of e o) ((pfs2Of e o).entries.length - 1))
        (rcOf e o).2.length,
      .sendData (rcOf e o).2]
  else []

/-- Internal events up to the first header materialization: the first cnmt
xml generation (line 310) followed by the ticket/certificate resolution when
one happens (lines 316-341). -/
def log0Of (e : Env) (o : Opts) : List LogEvent :=
  .genCnmtXml (ids0Of e o) :: (if retrieveOf e o then [.resolveTikCert] else [])

/-- The `nspDump` routine (lines 64-754), on its success path: external
collaborators are modelled as succeeding, except the USB connection poll,
the one failure mode the claims are about.  A missing meta content (or an
empty content list) aborts up front, mirroring lines 66 and 169-174. -/
def nspDump (e : Env) (o : Opts) : DumpResult :=
  if e.contents.length == 0 || !hasMetaB e then emptyResult
  else
    let hs1 := pfsHeaderSize (pfs1Of e o)
    let total := hs1 + (pfs1Of e o).fs_size
    let log0 := log0Of e o
    if !pollUsb e.usbReady then
      { emptyResult with
          ctxs0 := buildCtxs e o, xml1 := xml1Of e o, retrieve := retrieveOf e o,
          tikFinal := (rcOf e o).1, certChain := (rcOf e o).2, pfs1 := pfs1Of e o,
          ctxs1 := (pfsAfterAdds e o).2, headerSize1 := hs1, nspSize := total, log := log0 }
    else
      { ok := true, usbConn := true, ctxs0 := buildCtxs e o, xml1 := xml1Of e o
        retrieve := retrieveOf e o, tikFinal := (rcOf e o).1, certChain := (rcOf e o).2
        pfs1 := pfs1Of e o, ctxs1 := (pfsAfterAdds e o).2, headerSize1 := hs1
        nspSize := total, units := (p2Of e o).units, pfsU := (p2Of e o).pfs
        ctxsU := (p2Of e o).ctxs, xml2 := xml2Of e o, pfs2 := pfs2Of e o
        headerSize2 := pfsHeaderSize (pfs2Of e o)
        trace := .announceNsp e.path total hs1 ::
          (((p2Of e o).units.map unitTrace).flatten ++ xmlTraceOf e o ++ (gOf e o).2
            ++ tikTraceOf e o ++ [.sendNspHeader (pfsHeaderSize (pfs2Of e o))])
        log := log0 ++ [.genCnmtXml (idsFOf e o)] }

/-! ### Concrete environments used by the witnesses -/

/-- A minimal accessible two-content title (one program, one meta), no ticket
material, USB ready at once.  The hash function tags the stream length so the
two finalized ids differ. -/
def envA : Env :=
  { contents := [⟨.Program⟩, ⟨.Meta⟩]
    storage := .sdCard
    path := "out.nsp"
    initNca := fun i =>
      if i = 0 then
        { id0 := "aaaaaaaaaaaaaaaaaaaaaaaaaaaaaaaa", size := 3, rightsAvail := false,
          tkRetrieved := false, read := fun _ _ => [1, 2, 3],
          writeHeader := fun _ _ _ buf => (buf, true) }
      else
        { id0 := "bbbbbbbbbbbbbbbbbbbbbbbbbbbbbbbb", size := 2, rightsAvail := false,
          tkRetrieved := false, read := fun _ _ => [7, 8],
          writeHeader := fun _ _ _ buf => (buf, true) }
    tik := ⟨[], "dddddddddddddddddddddddddddddddd", false, ""⟩
    sha := fun bs => bs.length % 256 :: List.replicate 31 0
    cnmtXml := fun _ => [5, 5, 5, 5, 5, 5, 5]
    programXml := fun _ => [9, 9]
    programPatch := fun _ _ buf => buf
    nacpIcons := fun _ => []
    nacpXml := fun _ => []
    legalXml := fun _ => []
    cnmtPatch := fun _ _ buf => buf
    convert := fun t => (⟨[4, 4], t.rightsIdStr, false, t.issuer⟩, [6, 6, 6])
    certGC := fun _ => [1, 1]
    certIssuer := fun _ => [2, 2, 2]
    usbReady := fun _ => true }

/-- All dump options off. -/
def opts0 : Opts := ⟨false, false, false, false⟩

/-- The same title with a personalized ticket present. -/
def envB : Env :=
  { envA with tik := ⟨[3, 3, 3, 3], "cccccccccccccccccccccccccccccccc", true, "Root-CA00000003-XS00000020"⟩ }

/-- The same title whose program content has a rights id but no retrievable
titlekey, so pass 1 skips it. -/
def envC : Env :=
  { envA with
      initNca := fun i =>
        if i = 0 then
          { id0 := "aaaaaaaaaaaaaaaaaaaaaaaaaaaaaaaa", size := 3, rightsAvail := true,
            tkRetrieved := false, read := fun _ _ => [1, 2, 3],
            writeHeader := fun _ _ _ buf => (buf, true) }
        else
          { id0 := "bbbbbbbbbbbbbbbbbbbbbbbbbbbbbbbb", size := 2, rightsAvail := false,
            tkRetrieved := false, read := fun _ _ => [7, 8],
            writeHeader := fun _ _ _ buf => (buf, true) } }

/-- The same title with a USB host that never becomes ready. -/
def envD : Env := { envA with usbReady := fun _ => false }

/-- The same title with the meta content listed first. -/
def envE : Env := { envA with contents := [⟨.Meta⟩, ⟨.Program⟩] }

/-! ### Derived notions used by the statements -/

/-- The nca entry produced for one `nca_ctx` slot (lines 344-354). -/
def ncaEntryOf (ctx : NcaCtx) : PfsEntry := ⟨ctx.idStr, ncaSfx ctx.ctype, ctx.size⟩

/-- Entries contributed to the table by one slot of the
content-type-context data loop (lines 365-415). -/
def ctxDataEntries (ctx : NcaCtx) : List PfsEntry :=
  match ctx.typeCtx with
  | some (.program xml _) => [⟨ctx.idStr, ".programinfo.xml", xml.length⟩]
  | some (.control icons xml) =>
    icons.map (fun ic => ⟨ctx.idStr, ".nx." ++ ic.1 ++ ".jpg", ic.2.length⟩)
      ++ [⟨ctx.idStr, ".nacp.xml", xml.length⟩]
  | some (.legal xml) => [⟨ctx.idStr, ".legalinfo.xml", xml.length⟩]
  | _ => []

/-- How one slot's `content_type_ctx_data_idx` is updated by the
content-type-context data loop, given the table length at its turn. -/
def ctxDataAdjust (ctx : NcaCtx) (base : Nat) : NcaCtx :=
  match ctx.typeCtx with
  | some (.program _ _) => { ctx with dataIdx := base }
  | some (.control icons _) => if icons.isEmpty then ctx else { ctx with dataIdx := base }
  | some (.legal _) => { ctx with dataIdx := base }
  | _ => ctx

/-- Renames this slot performs during the ctx-data send loop: none without a
context, the icon entries plus the xml entry for a nacp context, one xml
entry otherwise. -/
def ctxDataSpan (ctx : NcaCtx) : Nat :=
  match ctx.typeCtx with
  | some (.program _ _) => 1
  | some (.control icons _) => icons.length + 1
  | some (.legal _) => 1
  | _ => 0

/-- Payload accounting invariant of the pfs context: `fs_size` is the sum of
the declared entry sizes. -/
def fsOK (c : PfsCtx) : Prop := c.fs_size = (c.entries.map (fun en => en.size)).sum

/-- All identifier parts of the entry names have the fixed 32-hex width. -/
def P32 (c : PfsCtx) : Prop := ∀ en ∈ c.entries, en.idPart.length = 32

/-- The entry data that never changes after creation: extension and declared
size, in table order. -/
def pfsShape (c : PfsCtx) : List (String × Nat) :=
  c.entries.map (fun en => (en.sfx, en.size))

/-- The name lengths, in table order (what the header size depends on
besides the entry count). -/
def pfsNameLens (c : PfsCtx) : List Nat :=
  c.entries.map (fun en => (entryName en).length)

/-- Predicates on the pfs context preserved by arbitrary renames. -/
def renameStable (P : PfsCtx → Prop) : Prop := ∀ c i s, P c → P (pfsRename c i s)

/-- Predicates on the pfs context preserved by renames to 32-hex identifiers. -/
def renameStable32 (P : PfsCtx → Prop) : Prop :=
  ∀ c i s, s.length = 32 → P c → P (pfsRename c i s)

/-- The title has exactly one meta content. -/
def oneMeta (e : Env) : Prop := e.contents.countP (fun c => decide (c.ctype = .Meta)) = 1

/-- Environment well-formedness: SHA-256 digests are 32 bytes long,
provisional content id strings and the ticket rights id string have the
fixed 32-hex width, ticket conversion keeps the rights identity (a common
ticket for the same rights), and the title has exactly one meta content. -/
def EnvWF (e : Env) : Prop :=
  (∀ bs, (e.sha bs).length = 32) ∧ (∀ i, (e.initNca i).id0.length = 32) ∧
    e.tik.rightsIdStr.length = 32 ∧ (∀ t, ((e.convert t).1).rightsIdStr = t.rightsIdStr) ∧
    oneMeta e

/-! ## Theorems -/

/-- Folding a step that preserves a predicate preserves it over a whole list. -/
theorem foldl_preserves {α : Type u} {β : Type v} {f : β → α → β} {P : β → Prop}
    (h : ∀ st a, P st → P (f st a)) :
    ∀ (l : List α) (st : β), P st → P (l.foldl f st)
  | [], _, hst => hst
  | a :: l, st, hst => foldl_preserves h l (f st a) (h st a hst)

/-- Each block iteration keeps the hashed stream equal to the concatenation
of the blocks forwarded to the transport. -/
theorem blockStep_acc_flatten (u : StreamCfg) (blk : Nat) (st : StreamSt) (off : Nat)
    (h : st.acc = st.sent.flatten) :
    (blockStep u blk st off).acc = (blockStep u blk st off).sent.flatten := by
  cases hd : st.dirty <;>
    simp [blockStep, hd, h, List.flatten_append]

/-- Over the whole block loop, the bytes fed to the hash are exactly the
concatenation of the blocks sent to the transport. -/
theorem streamUnit_acc_flatten (u : StreamCfg) (blk : Nat) :
    (streamUnit u blk).acc = (streamUnit u blk).sent.flatten :=
  foldl_preserves (P := fun st => st.acc = st.sent.flatten)
    (fun st a hst => blockStep_acc_flatten u blk st a hst)
    (blockOffsets u.size blk) ⟨[], [], u.dirty0, false⟩ rfl

/-- The outcome of one pass-2 unit hashes exactly its transmitted bytes. -/
theorem unitOutcome_hash (e : Env) (o : Opts) (blk : Nat) (i : Nat) (ctx : NcaCtx)
    (s : String) (w : List (String × List Byte)) :
    (unitOutcome e o blk i ctx s w).finalHash
        = e.sha (unitOutcome e o blk i ctx s w).sent.flatten ∧
      (unitOutcome e o blk i ctx s w).finalId
        = idOfHash (e.sha (unitOutcome e o blk i ctx s w).sent.flatten) := by
  unfold unitOutcome
  simp [streamUnit_acc_flatten]

/-- Every unit record produced by the pass-2 fold hashes exactly its
transmitted bytes. -/
theorem p2_units_hash (e : Env) (o : Opts) (blk : Nat) (l : List Nat) (st : P2State)
    (h : ∀ u ∈ st.units,
      u.finalHash = e.sha u.sent.flatten ∧ u.finalId = idOfHash (e.sha u.sent.flatten)) :
    ∀ u ∈ (l.foldl (processUnit e o blk) st).units,
      u.finalHash = e.sha u.sent.flatten ∧ u.finalId = idOfHash (e.sha u.sent.flatten) := by
  refine foldl_preserves (P := fun st => ∀ u ∈ st.units,
    u.finalHash = e.sha u.sent.flatten ∧ u.finalId = idOfHash (e.sha u.sent.flatten))
    ?_ l st h
  intro st' i hst' u hu
  unfold processUnit at hu
  simp only [List.mem_append, List.mem_singleton] at hu
  rcases hu with hu | hu
  · exact hst' u hu
  · subst hu
    exact unitOutcome_hash e o blk i _ _ _

/-- C1: for every content unit streamed by the dump routine, the finalized
hash — and hence the content identifier passed to
`ncaUpdateContentIdAndHash` — is the SHA-256 computed over exactly the bytes
forwarded to the transport for that unit: the re-encrypted header bytes and
any content-type patch bytes are written into the block buffer before the
running hash is updated with that buffer, so the hash covers the patched
bytes, never the pre-patch bytes. -/
theorem nsp_unit_hash_covers_transport_bytes (e : Env) (o : Opts) :
    ∀ u ∈ (nspDump e o).units,
      u.finalHash = e.sha u.sent.flatten ∧ u.finalId = idOfHash (e.sha u.sent.flatten) := by
  rw [nspDump]
  split
  · intro u hu
    simp [emptyResult] at hu
  · split
    · intro u hu
      simp [emptyResult] at hu
    · exact p2_units_hash e o BLOCK_SIZE _ _ (by intro u hu; simp at hu)

/-- Witness for C1 at a concrete two-content title. -/
theorem nsp_unit_hash_covers_transport_bytes_witness :
    ((nspDump envA opts0).units.getD 0 default) ∈ (nspDump envA opts0).units ∧
      ((nspDump envA opts0).units.getD 0 default).finalHash
        = envA.sha ((nspDump envA opts0).units.getD 0 default).sent.flatten :=
  ⟨by decide,
    (nsp_unit_hash_covers_transport_bytes envA opts0 _ (by decide)).1⟩

/-- The poll loop answers true exactly when the host reports ready strictly
before the 10-second timeout, provided enough fuel to reach the timeout. -/
theorem pollLoopAux_true_iff (r : Nat → Bool) :
    ∀ fuel t, t + fuel = 11 →
      (pollLoopAux r fuel t = true ↔ ∃ s, t ≤ s ∧ s < 10 ∧ r s = true) := by
  intro fuel
  induction fuel with
  | zero =>
    intro t ht
    constructor
    · intro h
      exact absurd h (by simp [pollLoopAux])
    · rintro ⟨s, hs1, hs2, _⟩
      omega
  | succ k ih =>
    intro t ht
    by_cases h10 : 10 ≤ t
    · constructor
      · intro h
        simp [pollLoopAux, h10] at h
      · rintro ⟨s, hs1, hs2, _⟩
        omega
    · by_cases hr : r t = true
      · constructor
        · intro _
          exact ⟨t, Nat.le_refl t, by omega, hr⟩
        · intro _
          simp [pollLoopAux, h10, hr]
      · have heq : pollLoopAux r (k + 1) t = pollLoopAux r k (t + 1) := by
          simp [pollLoopAux, h10, hr]
        rw [heq, ih (t + 1) (by omega)]
        constructor
        · rintro ⟨s, hs1, hs2, hs3⟩
          exact ⟨s, by omega, hs2, hs3⟩
        · rintro ⟨s, hs1, hs2, hs3⟩
          refine ⟨s, ?_, hs2, hs3⟩
          rcases Nat.eq_or_lt_of_le hs1 with h | h
          · subst h
            exact absurd hs3 (by simp [hr])
          · omega

/-- The USB connection poll succeeds exactly when the host reports ready at
one of the ten one-second marks before the timeout. -/
theorem pollUsb_true_iff (r : Nat → Bool) :
    pollUsb r = true ↔ ∃ t, t < 10 ∧ r t = true := by
  rw [pollUsb, pollLoopAux_true_iff r 11 0 rfl]
  constructor
  · rintro ⟨s, _, h2, h3⟩
    exact ⟨s, h2, h3⟩
  · rintro ⟨s, h2, h3⟩
    exact ⟨s, Nat.zero_le s, h2, h3⟩

/-- C9: transport connection establishment is a bounded poll (fixed 1-second
interval, fixed 10-second timeout — ready is sampled at the ten one-second
marks before the timeout) and fails closed: if the host never reports ready
within the timeout, the run aborts with no announce or send call ever issued
to the transport. -/
theorem nsp_usb_poll_bounded_fails_closed (e : Env) (o : Opts) :
    (pollUsb e.usbReady = true ↔ ∃ t, t < 10 ∧ e.usbReady t = true) ∧
      ((∀ t, t < 10 → e.usbReady t = false) →
        (nspDump e o).usbConn = false ∧ (nspDump e o).trace = []) := by
  refine ⟨pollUsb_true_iff e.usbReady, fun h => ?_⟩
  have hp : pollUsb e.usbReady = false := by
    rw [Bool.eq_false_iff]
    intro hc
    rcases (pollUsb_true_iff e.usbReady).1 hc with ⟨t, ht, hr⟩
    rw [h t ht] at hr
    exact Bool.false_ne_true hr
  rw [nspDump]
  split
  · exact ⟨rfl, rfl⟩
  · split
    · exact ⟨rfl, rfl⟩
    · next hcond =>
      rw [hp] at hcond
      simp at hcond

/-- Witness for C9 at a host that never becomes ready. -/
theorem nsp_usb_poll_bounded_fails_closed_witness :
    (pollUsb envD.usbReady = true ↔ ∃ t, t < 10 ∧ envD.usbReady t = true) ∧
      ((nspDump envD opts0).usbConn = false ∧ (nspDump envD opts0).trace = []) := by
  have h := nsp_usb_poll_bounded_fails_closed envD opts0
  exact ⟨h.1, h.2 (fun t _ => rfl)⟩

/-! ### List and pfs bookkeeping lemmas -/

/-- Setting an index to the value already there changes nothing. -/
theorem set_getD_self {α : Type u} : ∀ (l : List α) (i : Nat) (d : α), l.set i (l.getD i d) = l
  | [], _, _ => rfl
  | _ :: _, 0, _ => rfl
  | a :: l, i + 1, d => by
    simp only [List.set_cons_succ, List.getD_cons_succ]
    rw [set_getD_self l i d]

/-- A set whose new element agrees with the old one under a projection is
invisible to a map of that projection. -/
theorem map_set_self {α : Type u} {β : Type v} (f : α → β) (l : List α) (i : Nat) (a d : α)
    (h : f a = f (l.getD i d)) : (l.set i a).map f = l.map f := by
  rw [List.map_set, h, ← List.getD_map l d f, set_getD_self]

theorem pfsRename_length (c : PfsCtx) (i : Nat) (s : String) :
    (pfsRename c i s).entries.length = c.entries.length :=
  List.length_set c.entries i _

theorem pfsRename_fs (c : PfsCtx) (i : Nat) (s : String) :
    (pfsRename c i s).fs_size = c.fs_size := rfl

/-- An out-of-range rename is the identity. -/
theorem pfsRename_oob (c : PfsCtx) (i : Nat) (s : String) (h : c.entries.length ≤ i) :
    pfsRename c i s = c := by
  unfold pfsRename
  rw [List.set_eq_of_length_le h]

/-- Renaming never changes extensions or declared sizes. -/
theorem pfsRename_shape (c : PfsCtx) (i : Nat) (s : String) :
    pfsShape (pfsRename c i s) = pfsShape c :=
  map_set_self _ _ i _ default rfl

/-- Renaming never changes the declared sizes. -/
theorem pfsRename_sizes (c : PfsCtx) (i : Nat) (s : String) :
    (pfsRename c i s).entries.map (fun en => en.size) = c.entries.map (fun en => en.size) :=
  map_set_self _ _ i _ default rfl

theorem pfsRename_fsOK (c : PfsCtx) (i : Nat) (s : String) (h : fsOK c) :
    fsOK (pfsRename c i s) := by
  unfold fsOK at h ⊢
  rw [pfsRename_fs, pfsRename_sizes, h]

/-- Renaming a 32-wide identifier to a 32-wide identifier preserves every
name length. -/
theorem pfsRename_nameLens (c : PfsCtx) (i : Nat) (s : String)
    (h32 : P32 c) (hs : s.length = 32) :
    pfsNameLens (pfsRename c i s) = pfsNameLens c := by
  by_cases hi : i < c.entries.length
  · refine map_set_self _ _ i _ default ?_
    have hmem : c.entries.getD i default ∈ c.entries := by
      rw [List.getD_eq_getElem _ _ hi]
      exact List.getElem_mem hi
    have h2 := h32 _ hmem
    dsimp only [entryName]
    rw [String.length_append, String.length_append, hs, h2]
  · rw [pfsRename_oob c i s (by omega)]

theorem pfsRename_P32 (c : PfsCtx) (i : Nat) (s : String) (h32 : P32 c)
    (hs : s.length = 32) : P32 (pfsRename c i s) := by
  intro en hen
  rcases List.mem_or_eq_of_mem_set hen with h | h
  · exact h32 _ h
  · subst h
    exact hs

/-- Entries at other indices are untouched by a rename. -/
theorem pfsRename_getD_ne (c : PfsCtx) (i j : Nat) (s : String) (h : i ≠ j) :
    (pfsRename c i s).entries.getD j default = c.entries.getD j default := by
  unfold pfsRename
  simp [List.getD_eq_getElem?_getD, List.getElem?_set_ne h]

/-- The header size is a function of the name lengths (and the entry count,
which they determine). -/
theorem pfsHeaderSize_congr (c c' : PfsCtx) (h1 : pfsNameLens c' = pfsNameLens c) :
    pfsHeaderSize c' = pfsHeaderSize c := by
  have hlen : c'.entries.length = c.entries.length := by
    have h2 := congrArg List.length h1
    simpa [pfsNameLens] using h2
  have hmm : ∀ d : PfsCtx, d.entries.map (fun en => (entryName en).length + 1)
      = (pfsNameLens d).map (fun x => x + 1) := by
    intro d
    unfold pfsNameLens
    rw [List.map_map]
    rfl
  unfold pfsHeaderSize
  rw [hlen, hmm, hmm, h1]

theorem pfsAddEntry_fst_entries (c : PfsCtx) (idp sfx : String) (sz : Nat) :
    (pfsAddEntry c idp sfx sz).1.entries = c.entries ++ [⟨idp, sfx, sz⟩] := rfl

theorem pfsAddEntry_fsOK (c : PfsCtx) (idp sfx : String) (sz : Nat) (h : fsOK c) :
    fsOK (pfsAddEntry c idp sfx sz).1 := by
  unfold fsOK at h ⊢
  simp [pfsAddEntry, h]

/-! ### Run characterization -/

/-- When the run completes: nonempty content list with a meta content, and a
USB connection within the poll window. -/
theorem nspDump_ok_iff (e : Env) (o : Opts) :
    (nspDump e o).ok = true ↔
      (0 < e.contents.length ∧ hasMetaB e = true ∧ pollUsb e.usbReady = true) := by
  rw [nspDump]
  split
  · next h =>
    simp only [Bool.or_eq_true, beq_iff_eq, Bool.not_eq_true'] at h
    simp only [emptyResult, Bool.false_eq_true, false_iff]
    rintro ⟨h1, h2, _⟩
    rcases h with h | h
    · omega
    · rw [h] at h2
      exact Bool.false_ne_true h2
  · next h =>
    simp only [Bool.or_eq_true, beq_iff_eq, Bool.not_eq_true'] at h
    push_neg at h
    split
    · next hp =>
      simp only [Bool.not_eq_true'] at hp
      simp only [emptyResult, Bool.false_eq_true, false_iff]
      rintro ⟨_, _, h3⟩
      rw [h3] at hp
      simp at hp
    · next hp =>
      simp only [Bool.not_eq_true', Bool.not_eq_false] at hp
      have h2 : hasMetaB e = true := Bool.ne_false_iff.mp h.2
      exact ⟨fun _ => ⟨Nat.pos_of_ne_zero h.1, h2, hp⟩, fun _ => rfl⟩

/-- Field values of a completed run, in terms of the phase functions. -/
theorem nspDump_ok_fields (e : Env) (o : Opts) (h : (nspDump e o).ok = true) :
    (nspDump e o).pfs1 = pfs1Of e o ∧
    (nspDump e o).ctxs1 = (pfsAfterAdds e o).2 ∧
    (nspDump e o).ctxs0 = buildCtxs e o ∧
    (nspDump e o).xml1 = xml1Of e o ∧
    (nspDump e o).retrieve = retrieveOf e o ∧
    (nspDump e o).tikFinal = (rcOf e o).1 ∧
    (nspDump e o).certChain = (rcOf e o).2 ∧
    (nspDump e o).headerSize1 = pfsHeaderSize (pfs1Of e o) ∧
    (nspDump e o).nspSize = pfsHeaderSize (pfs1Of e o) + (pfs1Of e o).fs_size ∧
    (nspDump e o).units = (p2Of e o).units ∧
    (nspDump e o).pfsU = (p2Of e o).pfs ∧
    (nspDump e o).ctxsU = (p2Of e o).ctxs ∧
    (nspDump e o).xml2 = xml2Of e o ∧
    (nspDump e o).pfs2 = pfs2Of e o ∧
    (nspDump e o).headerSize2 = pfsHeaderSize (pfs2Of e o) ∧
    (nspDump e o).trace = .announceNsp e.path
        (pfsHeaderSize (pfs1Of e o) + (pfs1Of e o).fs_size) (pfsHeaderSize (pfs1Of e o)) ::
      (((p2Of e o).units.map unitTrace).flatten ++ xmlTraceOf e o ++ (gOf e o).2
        ++ tikTraceOf e o ++ [.sendNspHeader (pfsHeaderSize (pfs2Of e o))]) ∧
    (nspDump e o).log = log0Of e o ++ [.genCnmtXml (idsFOf e o)] := by
  rcases (nspDump_ok_iff e o).1 h with ⟨h1, h2, h3⟩
  rw [nspDump]
  split
  · next hc =>
    exfalso
    simp only [Bool.or_eq_true, beq_iff_eq, Bool.not_eq_true'] at hc
    rcases hc with hc | hc
    · omega
    · rw [hc] at h2
      exact Bool.false_ne_true h2
  · split
    · next hc =>
      exfalso
      rw [h3] at hc
      simp at hc
    · exact ⟨rfl, rfl, rfl, rfl, rfl, rfl, rfl, rfl, rfl, rfl, rfl, rfl, rfl, rfl, rfl,
        rfl, rfl⟩

/-! ### Identifier widths -/

/-- Hex rendering yields two characters per byte. -/
theorem hexOfBytes_length (bs : List Byte) : (hexOfBytes bs).length = 2 * bs.length := by
  show ((bs.map byteHex).flatten).length = 2 * bs.length
  induction bs with
  | nil => rfl
  | cons b bs ih =>
    simp only [List.map_cons, List.flatten_cons, List.length_append, List.length_cons,
      List.length_nil, byteHex, ih]
    omega

/-- A finalized content id has the fixed 32-hex width whenever the digest has
the SHA-256 output length. -/
theorem idOfHash_length (h : List Byte) (hh : h.length = 32) : (idOfHash h).length = 32 := by
  unfold idOfHash
  rw [hexOfBytes_length, List.length_take, hh]
  decide

theorem getD_set_ne {α : Type u} (l : List α) (i j : Nat) (a d : α) (h : i ≠ j) :
    (l.set i a).getD j d = l.getD j d := by
  simp [List.getD_eq_getElem?_getD, List.getElem?_set_ne h]

theorem getD_set_self {α : Type u} (l : List α) (i : Nat) (a d : α) (h : i < l.length) :
    (l.set i a).getD i d = a := by
  simp [List.getD_eq_getElem?_getD, List.getElem?_set_self h]

theorem getD_oob {α : Type u} (l : List α) (i : Nat) (d : α) (h : l.length ≤ i) :
    l.getD i d = d := by
  rw [List.getD_eq_getElem?_getD, List.getElem?_eq_none (by omega)]
  rfl

/-! ### Entry-table construction: closed forms -/

/-- The nca entry loop appends one entry per slot, in slot order. -/
theorem addNcaEntries_entries (ctxs : List NcaCtx) : ∀ c : PfsCtx,
    (addNcaEntries ctxs c).entries = c.entries ++ ctxs.map ncaEntryOf := by
  induction ctxs with
  | nil => intro c; simp [addNcaEntries]
  | cons ctx ctxs ih =>
    intro c
    show (addNcaEntries ctxs _).entries = _
    rw [ih]
    simp [pfsAddEntry, ncaEntryOf]

theorem addNcaEntries_fsOK (ctxs : List NcaCtx) (c : PfsCtx) (h : fsOK c) :
    fsOK (addNcaEntries ctxs c) :=
  foldl_preserves (P := fsOK) (fun st ctx hst => pfsAddEntry_fsOK st _ _ _ hst) ctxs c h

/-- The cnmt xml entry addition, spelled out. -/
theorem addXmlEntry_spec (xml : List Byte) (ctxs : List NcaCtx) (c : PfsCtx) :
    (addXmlEntry xml ctxs c).1.entries
        = c.entries ++ [⟨(ctxs.getD (ctxs.length - 1) defaultCtx).idStr, ".cnmt.xml", xml.length⟩]
      ∧ (addXmlEntry xml ctxs c).2
        = ctxs.set (ctxs.length - 1)
            { ctxs.getD (ctxs.length - 1) defaultCtx with dataIdx := c.entries.length } :=
  ⟨rfl, rfl⟩

theorem addXmlEntry_fsOK (xml : List Byte) (ctxs : List NcaCtx) (c : PfsCtx) (h : fsOK c) :
    fsOK (addXmlEntry xml ctxs c).1 :=
  pfsAddEntry_fsOK c _ _ _ h

/-- The icon entry loop appends one entry per icon, in icon order. -/
theorem iconsFold_entries (s : String) (q : List (String × List Byte)) : ∀ c : PfsCtx,
    (q.foldl (fun acc ic => (pfsAddEntry acc s (".nx." ++ ic.1 ++ ".jpg") ic.2.length).1)
        c).entries
      = c.entries ++ q.map (fun ic => ⟨s, ".nx." ++ ic.1 ++ ".jpg", ic.2.length⟩) := by
  induction q with
  | nil => intro c; simp
  | cons ic q ih =>
    intro c
    rw [List.foldl_cons, ih]
    simp [pfsAddEntry]

theorem iconsFold_fsOK (s : String) (q : List (String × List Byte)) (c : PfsCtx) (h : fsOK c) :
    fsOK (q.foldl (fun acc ic => (pfsAddEntry acc s (".nx." ++ ic.1 ++ ".jpg") ic.2.length).1) c) :=
  foldl_preserves (P := fsOK) (fun st ic hst => pfsAddEntry_fsOK st _ _ _ hst) q c h

/-- The ctx-data loop body for one context: appends that context's entries
and adjusts its recorded data index. -/
theorem addCtxDataOne_spec (c : PfsCtx) (ctx : NcaCtx) :
    (addCtxDataOne c ctx).1.entries = c.entries ++ ctxDataEntries ctx ∧
      (addCtxDataOne c ctx).2 = ctxDataAdjust ctx c.entries.length := by
  rcases hm : ctx.typeCtx with _ | tc
  · simp [addCtxDataOne, ctxDataEntries, ctxDataAdjust, hm]
  · cases tc with
    | cnmt => simp [addCtxDataOne, ctxDataEntries, ctxDataAdjust, hm]
    | program xml p => simp [addCtxDataOne, ctxDataEntries, ctxDataAdjust, hm, pfsAddEntry]
    | legal xml => simp [addCtxDataOne, ctxDataEntries, ctxDataAdjust, hm, pfsAddEntry]
    | control icons xml =>
      constructor
      · simp only [addCtxDataOne, hm, pfsAddEntry_fst_entries]
        rw [iconsFold_entries]
        simp [ctxDataEntries, hm]
      · simp [addCtxDataOne, ctxDataAdjust, hm]

/-- One step of the ctx-data entry loop: appends that slot's entries and
adjusts that slot's recorded data index. -/
theorem addCtxDataStep_spec (c : PfsCtx) (ctxs : List NcaCtx) (i : Nat) :
    (addCtxDataStep (c, ctxs) i).1.entries
        = c.entries ++ ctxDataEntries (ctxs.getD i defaultCtx)
      ∧ (addCtxDataStep (c, ctxs) i).2
        = ctxs.set i (ctxDataAdjust (ctxs.getD i defaultCtx) c.entries.length) := by
  unfold addCtxDataStep
  refine ⟨(addCtxDataOne_spec c (ctxs.getD i defaultCtx)).1, ?_⟩
  show ctxs.set i (addCtxDataOne c (ctxs.getD i defaultCtx)).2 = _
  rw [(addCtxDataOne_spec c (ctxs.getD i defaultCtx)).2]

theorem addCtxDataOne_fsOK (c : PfsCtx) (ctx : NcaCtx) (h : fsOK c) :
    fsOK (addCtxDataOne c ctx).1 := by
  unfold addCtxDataOne
  split
  · exact pfsAddEntry_fsOK _ _ _ _ h
  · exact pfsAddEntry_fsOK _ _ _ _ (iconsFold_fsOK _ _ _ h)
  · exact pfsAddEntry_fsOK _ _ _ _ h
  · exact h

theorem addCtxDataStep_fsOK (st : PfsCtx × List NcaCtx) (i : Nat) (h : fsOK st.1) :
    fsOK (addCtxDataStep st i).1 :=
  addCtxDataOne_fsOK st.1 _ h

theorem addTikCert_entries (b : Bool) (t : Tik) (cert : List Byte) (c : PfsCtx) :
    (addTikCert b t cert c).entries
      = c.entries ++ (if b then [⟨t.rightsIdStr, ".tik", t.data.length⟩,
          ⟨t.rightsIdStr, ".cert", cert.length⟩] else []) := by
  cases b <;> simp [addTikCert, pfsAddEntry]

theorem addTikCert_fsOK (b : Bool) (t : Tik) (cert : List Byte) (c : PfsCtx) (h : fsOK c) :
    fsOK (addTikCert b t cert c) := by
  cases b
  · exact h
  · exact pfsAddEntry_fsOK _ _ _ _ (pfsAddEntry_fsOK _ _ _ _ h)

/-- The ctx-data entry loop over slots `0 … k-1`, characterized: entries are
appended slot by slot, slots at `k` or beyond keep their contexts, and
processed slots record the table length at their turn. -/
theorem addCtxData_range_spec (c : PfsCtx) (ctxs : List NcaCtx) : ∀ k : Nat,
    ((List.range k).foldl addCtxDataStep (c, ctxs)).1.entries
        = c.entries
          ++ ((List.range k).map (fun i => ctxDataEntries (ctxs.getD i defaultCtx))).flatten
      ∧ ((List.range k).foldl addCtxDataStep (c, ctxs)).2.length = ctxs.length
      ∧ (∀ j, k ≤ j →
          ((List.range k).foldl addCtxDataStep (c, ctxs)).2.getD j defaultCtx
            = ctxs.getD j defaultCtx)
      ∧ (∀ j, j < k →
          ((List.range k).foldl addCtxDataStep (c, ctxs)).2.getD j defaultCtx
            = ctxDataAdjust (ctxs.getD j defaultCtx)
                (c.entries.length
                  + ((List.range j).map
                      (fun i => ctxDataEntries (ctxs.getD i defaultCtx))).flatten.length)) := by
  intro k
  induction k with
  | zero => exact ⟨by simp, rfl, fun j _ => rfl, fun j hj => absurd hj (by omega)⟩
  | succ k ih =>
    obtain ⟨ih1, ih2, ih3, ih4⟩ := ih
    have hfold : (List.range (k + 1)).foldl addCtxDataStep (c, ctxs)
        = addCtxDataStep ((List.range k).foldl addCtxDataStep (c, ctxs)) k := by
      rw [List.range_succ, List.foldl_append]
      rfl
    obtain ⟨hs1, hs2⟩ := addCtxDataStep_spec ((List.range k).foldl addCtxDataStep (c, ctxs)).1
      ((List.range k).foldl addCtxDataStep (c, ctxs)).2 k
    have hgk := ih3 k (Nat.le_refl k)
    refine ⟨?_, ?_, ?_, ?_⟩
    · rw [hfold, hs1, ih1, hgk, List.range_succ, List.map_append, List.flatten_append]
      simp
    · rw [hfold, hs2, List.length_set, ih2]
    · intro j hj
      rw [hfold, hs2, getD_set_ne _ _ _ _ _ (by omega), ih3 j (by omega)]
    · intro j hj
      rcases Nat.lt_or_ge j k with hlt | hge
      · rw [hfold, hs2, getD_set_ne _ _ _ _ _ (by omega), ih4 j hlt]
      · have hjk : j = k := by omega
        subst hjk
        rw [hfold, hs2]
        rcases Nat.lt_or_ge j (((List.range j).foldl addCtxDataStep (c, ctxs)).2.length)
          with hin | hout
        · rw [getD_set_self _ _ _ _ hin, hgk, ih1, List.length_append]
        · have hlen : ctxs.length ≤ j := by omega
          rw [List.set_eq_of_length_le (by omega), hgk, getD_oob ctxs j defaultCtx hlen]
          rfl

/-! ### Structure of the context array -/

/-- Length of the non-meta list: the content count minus the meta count. -/
theorem nonMetasAux_length : ∀ (l : List ContentInfo) (i : Nat),
    (nonMetasAux i l).length = l.length - l.countP (fun c => decide (c.ctype = .Meta))
  | [], _ => rfl
  | c :: l, i => by
    have ih := nonMetasAux_length l (i + 1)
    have hle := List.countP_le_length (p := fun c => decide (c.ctype = .Meta)) (l := l)
    by_cases hc : c.ctype = .Meta
    · simp [nonMetasAux, hc, ih, List.countP_cons]
    · simp [nonMetasAux, hc, ih, List.countP_cons]
      omega

/-- Every element of the non-meta list is a non-meta content. -/
theorem nonMetasAux_not_meta : ∀ (l : List ContentInfo) (i : Nat),
    ∀ p ∈ nonMetasAux i l, ¬ p.2 = ContentType.Meta
  | [], _ => by intro p hp; simp [nonMetasAux] at hp
  | c :: l, i => by
    intro p hp
    by_cases hc : c.ctype = .Meta
    · rw [nonMetasAux, if_pos hc] at hp
      exact nonMetasAux_not_meta l (i + 1) p hp
    · rw [nonMetasAux, if_neg hc] at hp
      rcases List.mem_cons.mp hp with h | h
      · subst h
        exact hc
      · exact nonMetasAux_not_meta l (i + 1) p h

theorem countMeta_pos (e : Env) (h : hasMetaB e = true) :
    0 < e.contents.countP (fun c => decide (c.ctype = .Meta)) := by
  rw [hasMetaB, List.any_eq_true] at h
  rcases h with ⟨x, hx, hc⟩
  rw [List.countP_pos]
  exact ⟨x, hx, hc⟩

theorem contents_pos (e : Env) (h : hasMetaB e = true) : 0 < e.contents.length := by
  have h1 := countMeta_pos e h
  have h2 := List.countP_le_length (p := fun c => decide (c.ctype = .Meta)) (l := e.contents)
  omega

theorem buildCtxs_length (e : Env) (o : Opts) (h : hasMetaB e = true) :
    (buildCtxs e o).length = e.contents.length := by
  unfold buildCtxs
  simp only [List.length_append, List.length_map, List.length_replicate, List.length_cons,
    List.length_nil]
  have h1 : (nonMetas e).length ≤ e.contents.length - 1 := by
    rw [nonMetas, nonMetasAux_length]
    have := countMeta_pos e h
    omega
  have h2 := contents_pos e h
  omega

theorem oneMeta_hasMetaB (e : Env) (h : oneMeta e) : hasMetaB e = true := by
  rw [hasMetaB, List.any_eq_true]
  have : 0 < e.contents.countP (fun c => decide (c.ctype = .Meta)) := by
    rw [h]
    omega
  rw [List.countP_pos] at this
  exact this

/-- With exactly one meta content there are no zeroed filler slots: the array
is the non-meta contexts followed by the meta context. -/
theorem buildCtxs_oneMeta (e : Env) (o : Opts) (h : oneMeta e) :
    buildCtxs e o = (nonMetas e).map (fun p => mkCtx e o p.1 p.2) ++ [mkMetaCtx e]
      ∧ (nonMetas e).length = e.contents.length - 1 := by
  have hlen : (nonMetas e).length = e.contents.length - 1 := by
    rw [nonMetas, nonMetasAux_length, h]
  refine ⟨?_, hlen⟩
  unfold buildCtxs
  dsimp only
  rw [List.length_map, hlen]
  rw [show e.contents.length - 1 - (e.contents.length - 1) = 0 by omega]
  simp

/-- Indexing the appended singleton. -/
theorem getD_append_self {α : Type u} (l : List α) (a d : α) :
    (l ++ [a]).getD l.length d = a := by
  rw [List.getD_eq_getElem?_getD, List.getElem?_append]
  simp

/-! ### The pass-2 NCA loop, characterized -/

/-- One step of the pass-2 loop, spelled out. -/
theorem processUnit_spec (e : Env) (o : Opts) (blk : Nat) (st : P2State) (i : Nat) :
    processUnit e o blk st i
      = { pfs := pfsRename st.pfs i
            (unitOutcome e o blk i (st.ctxs.getD i defaultCtx) (pfsEntryNameAt st.pfs i)
              st.upds).finalId
          ctxs := st.ctxs.set i
            { metaAdjust (st.ctxs.getD i defaultCtx) with
                idStr := (unitOutcome e o blk i (st.ctxs.getD i defaultCtx)
                  (pfsEntryNameAt st.pfs i) st.upds).finalId }
          units := st.units ++ [unitOutcome e o blk i (st.ctxs.getD i defaultCtx)
            (pfsEntryNameAt st.pfs i) st.upds]
          upds := st.upds ++ [((unitOutcome e o blk i (st.ctxs.getD i defaultCtx)
            (pfsEntryNameAt st.pfs i) st.upds).finalId,
            (unitOutcome e o blk i (st.ctxs.getD i defaultCtx)
              (pfsEntryNameAt st.pfs i) st.upds).finalHash)] } := rfl

/-- The pass-2 NCA loop over slots `0 … k-1`, characterized: one unit record
per slot, each computed from the slot's pass-1 context, its provisional entry
name, and the cnmt updates of the earlier slots; slot contexts are finalized
in place; the pfs entries at unprocessed indices are untouched. -/
theorem p2Fold_spec (e : Env) (o : Opts) (blk : Nat) (c0 : PfsCtx) (x0 : List NcaCtx) :
    ∀ k : Nat,
    (p2Fold e o blk c0 x0 k).units.length = k ∧
    (p2Fold e o blk c0 x0 k).ctxs.length = x0.length ∧
    (p2Fold e o blk c0 x0 k).pfs.entries.length = c0.entries.length ∧
    (p2Fold e o blk c0 x0 k).upds
      = (p2Fold e o blk c0 x0 k).units.map (fun u => (u.finalId, u.finalHash)) ∧
    (∀ j, k ≤ j →
      (p2Fold e o blk c0 x0 k).ctxs.getD j defaultCtx = x0.getD j defaultCtx ∧
      (p2Fold e o blk c0 x0 k).pfs.entries.getD j default = c0.entries.getD j default) ∧
    (∀ j, j < k →
      (p2Fold e o blk c0 x0 k).units.getD j default
        = unitOutcome e o blk j (x0.getD j defaultCtx)
            (entryName (c0.entries.getD j default))
            (((p2Fold e o blk c0 x0 k).units.take j).map (fun u => (u.finalId, u.finalHash))) ∧
      (j < x0.length →
        (p2Fold e o blk c0 x0 k).ctxs.getD j defaultCtx
          = { metaAdjust (x0.getD j defaultCtx) with
              idStr := ((p2Fold e o blk c0 x0 k).units.getD j default).finalId })) := by
  intro k
  induction k with
  | zero =>
    exact ⟨rfl, rfl, rfl, rfl, fun j _ => ⟨rfl, rfl⟩, fun j hj => absurd hj (by omega)⟩
  | succ k ih =>
    obtain ⟨ih1, ih2, ih3, ih4, ih5, ih6⟩ := ih
    have hfold : p2Fold e o blk c0 x0 (k + 1)
        = processUnit e o blk (p2Fold e o blk c0 x0 k) k := by
      unfold p2Fold
      rw [List.range_succ, List.foldl_append]
      rfl
    have hctx := (ih5 k (Nat.le_refl k)).1
    have hpfs := (ih5 k (Nat.le_refl k)).2
    have hname : pfsEntryNameAt (p2Fold e o blk c0 x0 k).pfs k
        = entryName (c0.entries.getD k default) := by
      rw [pfsEntryNameAt, hpfs]
    set r := unitOutcome e o blk k (x0.getD k defaultCtx)
      (entryName (c0.entries.getD k default))
      ((p2Fold e o blk c0 x0 k).units.map (fun u => (u.finalId, u.finalHash))) with hr
    have hstep : p2Fold e o blk c0 x0 (k + 1)
        = { pfs := pfsRename (p2Fold e o blk c0 x0 k).pfs k r.finalId
            ctxs := (p2Fold e o blk c0 x0 k).ctxs.set k
              { metaAdjust (x0.getD k defaultCtx) with idStr := r.finalId }
            units := (p2Fold e o blk c0 x0 k).units ++ [r]
            upds := (p2Fold e o blk c0 x0 k).upds ++ [(r.finalId, r.finalHash)] } := by
      rw [hfold, processUnit_spec, hctx, hname, ih4]
    refine ⟨?_, ?_, ?_, ?_, ?_, ?_⟩
    · rw [hstep]
      simp only [List.length_append, List.length_cons, List.length_nil, ih1]
    · rw [hstep]
      simp only [List.length_set, ih2]
    · rw [hstep]
      simp only [pfsRename_length, ih3]
    · rw [hstep]
      simp only [List.map_append, ih4, List.map_cons, List.map_nil]
    · intro j hj
      rw [hstep]
      constructor
      · simp only []
        rw [getD_set_ne _ _ _ _ _ (by omega)]
        exact (ih5 j (by omega)).1
      · simp only []
        rw [pfsRename_getD_ne _ _ _ _ (by omega)]
        exact (ih5 j (by omega)).2
    · intro j hj
      rcases Nat.lt_or_ge j k with hlt | hge
      · have hju := ih6 j hlt
        rw [hstep]
        refine ⟨?_, ?_⟩
        · simp only []
          rw [List.getD_append _ _ _ _ (by omega),
            List.take_append_of_le_length (by omega), hju.1]
        · intro hx
          simp only []
          rw [getD_set_ne _ _ _ _ _ (by omega),
            List.getD_append _ _ _ _ (by omega), (hju.2 hx)]
      · have hjk : j = k := by omega
        subst hjk
        have hu : ((p2Fold e o blk c0 x0 j).units ++ [r]).getD j default = r := by
          have hg := getD_append_self (p2Fold e o blk c0 x0 j).units r default
          rw [ih1] at hg
          exact hg
        refine ⟨?_, ?_⟩
        · rw [hstep]
          simp only []
          rw [hu, List.take_append_of_le_length (by omega),
            List.take_of_length_le (by omega), hr]
        · intro hx
          rw [hstep]
          simp only []
          rw [getD_set_self _ _ _ _ (by rw [ih2]; omega), hu]

/-! ### The entry table at the first materialization -/

/-- Pass-1 processing never touches the provisional content id string. -/
theorem mkCtx_idStr (e : Env) (o : Opts) (i : Nat) (ct : ContentType) :
    (mkCtx e o i ct).idStr = (e.initNca i).id0 := by
  unfold mkCtx
  dsimp only
  split
  · rfl
  · rfl

theorem mkMetaCtx_idStr (e : Env) : (mkMetaCtx e).idStr = (e.initNca (metaIdx e)).id0 := rfl

/-- Under well-formedness every slot of the context array carries a 32-hex
provisional id. -/
theorem buildCtxs_idStr_32 (e : Env) (o : Opts) (hwf : EnvWF e) :
    ∀ ctx ∈ buildCtxs e o, ctx.idStr.length = 32 := by
  intro ctx hctx
  rw [(buildCtxs_oneMeta e o hwf.2.2.2.2).1] at hctx
  rcases List.mem_append.mp hctx with h | h
  · rcases List.mem_map.mp h with ⟨p, _, hp⟩
    rw [← hp, mkCtx_idStr]
    exact hwf.2.1 p.1
  · rw [List.mem_singleton.mp h, mkMetaCtx_idStr]
    exact hwf.2.1 (metaIdx e)

/-- The rights id string used for the ticket and certificate entries. -/
theorem rcOf_rightsId (e : Env) (o : Opts) (hwf : EnvWF e) :
    (rcOf e o).1.rightsIdStr = e.tik.rightsIdStr := by
  unfold rcOf resolveCert
  split
  · split
    · exact hwf.2.2.2.1 e.tik
    · rfl
  · rfl

/-- The entry table at the first header materialization, spelled out: one nca
entry per slot, the cnmt xml entry sized by the first-pass xml, the
content-type data entries of slots `0 … n-2`, then the ticket and certificate
entries when resolution happened. -/
theorem pfs1Of_entries (e : Env) (o : Opts) (h : hasMetaB e = true) :
    (pfs1Of e o).entries
      = (buildCtxs e o).map ncaEntryOf
        ++ [⟨((buildCtxs e o).getD (e.contents.length - 1) defaultCtx).idStr, ".cnmt.xml",
            (xml1Of e o).length⟩]
        ++ ((List.range (e.contents.length - 1)).map
            (fun i => ctxDataEntries ((buildCtxs e o).getD i defaultCtx))).flatten
        ++ (if retrieveOf e o then
            [⟨(rcOf e o).1.rightsIdStr, ".tik", (rcOf e o).1.data.length⟩,
              ⟨(rcOf e o).1.rightsIdStr, ".cert", (rcOf e o).2.length⟩] else []) := by
  have hL : (buildCtxs e o).length = e.contents.length := buildCtxs_length e o h
  have h1 : (addNcaEntries (buildCtxs e o) pfsInit).entries
      = (buildCtxs e o).map ncaEntryOf := by
    rw [addNcaEntries_entries]
    rfl
  obtain ⟨h2a, h2b⟩ := addXmlEntry_spec (xml1Of e o) (buildCtxs e o)
    (addNcaEntries (buildCtxs e o) pfsInit)
  have hpc : pfsAfterAdds e o
      = addCtxDataEntries e.contents.length
          ((addXmlEntry (xml1Of e o) (buildCtxs e o)
            (addNcaEntries (buildCtxs e o) pfsInit)).1,
           (addXmlEntry (xml1Of e o) (buildCtxs e o)
            (addNcaEntries (buildCtxs e o) pfsInit)).2) := rfl
  have h3 := addCtxData_range_spec
    (addXmlEntry (xml1Of e o) (buildCtxs e o) (addNcaEntries (buildCtxs e o) pfsInit)).1
    (addXmlEntry (xml1Of e o) (buildCtxs e o) (addNcaEntries (buildCtxs e o) pfsInit)).2
    (e.contents.length - 1)
  have h4 : ∀ i, i < e.contents.length - 1 →
      ((addXmlEntry (xml1Of e o) (buildCtxs e o)
        (addNcaEntries (buildCtxs e o) pfsInit)).2).getD i defaultCtx
        = (buildCtxs e o).getD i defaultCtx := by
    intro i hi
    rw [h2b, hL]
    exact getD_set_ne _ _ _ _ _ (by omega)
  have hmap : (List.range (e.contents.length - 1)).map
        (fun i => ctxDataEntries (((addXmlEntry (xml1Of e o) (buildCtxs e o)
          (addNcaEntries (buildCtxs e o) pfsInit)).2).getD i defaultCtx))
      = (List.range (e.contents.length - 1)).map
        (fun i => ctxDataEntries ((buildCtxs e o).getD i defaultCtx)) := by
    refine List.map_congr_left ?_
    intro i hi
    rw [h4 i (List.mem_range.mp hi)]
  unfold pfs1Of
  rw [addTikCert_entries, hpc]
  show ((addCtxDataEntries e.contents.length _).1.entries) ++ _ = _
  unfold addCtxDataEntries
  rw [h3.1, hmap, h2a, h1, hL]

/-- Under well-formedness, every identifier part in the first-pass table has
the fixed 32-hex width. -/
theorem pfs1Of_P32 (e : Env) (o : Opts) (hwf : EnvWF e) : P32 (pfs1Of e o) := by
  have h := oneMeta_hasMetaB e hwf.2.2.2.2
  have hL : (buildCtxs e o).length = e.contents.length := buildCtxs_length e o h
  intro en hen
  rw [pfs1Of_entries e o h] at hen
  rcases List.mem_append.mp hen with hen | hen
  · rcases List.mem_append.mp hen with hen | hen
    · rcases List.mem_append.mp hen with hen | hen
      · rcases List.mem_map.mp hen with ⟨ctx, hctx, hc⟩
        rw [← hc]
        exact buildCtxs_idStr_32 e o hwf ctx hctx
      · rw [List.mem_singleton.mp hen]
        have hin : e.contents.length - 1 < (buildCtxs e o).length := by
          rw [hL]
          have := contents_pos e h
          omega
        refine buildCtxs_idStr_32 e o hwf _ ?_
        rw [List.getD_eq_getElem _ _ hin]
        exact List.getElem_mem hin
    · rcases List.mem_flatten.mp hen with ⟨l, hl, hen⟩
      rcases List.mem_map.mp hl with ⟨i, hi, hli⟩
      have hctx32 : ((buildCtxs e o).getD i defaultCtx).idStr.length = 32 := by
        have hin : i < (buildCtxs e o).length := by
          rw [hL]
          have := List.mem_range.mp hi
          omega
        refine buildCtxs_idStr_32 e o hwf _ ?_
        rw [List.getD_eq_getElem _ _ hin]
        exact List.getElem_mem hin
      rw [← hli] at hen
      unfold ctxDataEntries at hen
      rcases hm : ((buildCtxs e o).getD i defaultCtx).typeCtx with _ | tc
      · rw [hm] at hen
        simp at hen
      · rw [hm] at hen
        cases tc with
        | cnmt => simp at hen
        | program xml p =>
          simp only [List.mem_singleton] at hen
          rw [hen]
          exact hctx32
        | legal xml =>
          simp only [List.mem_singleton] at hen
          rw [hen]
          exact hctx32
        | control icons xml =>
          rcases List.mem_append.mp hen with hen | hen
          · rcases List.mem_map.mp hen with ⟨ic, _, hic⟩
            rw [← hic]
            exact hctx32
          · rw [List.mem_singleton.mp hen]
            exact hctx32
  · split at hen
    · rcases List.mem_cons.mp hen with hen | hen
      · rw [hen, rcOf_rightsId e o hwf]
        exact hwf.2.2.1
      · rw [List.mem_singleton.mp hen, rcOf_rightsId e o hwf]
        exact hwf.2.2.1
    · simp at hen

/-! ### Renames preserve the layout -/

/-- Membership-aware fold preservation. -/
theorem foldl_preserves_mem {α : Type u} {β : Type v} {f : β → α → β} {P : β → Prop} :
    ∀ l : List α, (∀ st a, a ∈ l → P st → P (f st a)) → ∀ st : β, P st → P (l.foldl f st)
  | [], _, _, h => h
  | a :: l, hstep, st, h =>
    foldl_preserves_mem l (fun st b hb => hstep st b (List.mem_cons_of_mem a hb)) (f st a)
      (hstep st a (List.mem_cons_self a l) h)

theorem p2Fold_pfs_pres (e : Env) (o : Opts) (blk : Nat) (P : PfsCtx → Prop)
    (hP : renameStable P) (c0 : PfsCtx) (x0 : List NcaCtx) (k : Nat) (h : P c0) :
    P (p2Fold e o blk c0 x0 k).pfs := by
  unfold p2Fold
  refine foldl_preserves (P := fun st : P2State => P st.pfs) ?_ _ _ h
  intro st i hst
  exact hP _ _ _ hst

theorem p2Fold_pfs_pres32 (e : Env) (o : Opts) (blk : Nat) (P : PfsCtx → Prop)
    (hsha : ∀ bs, (e.sha bs).length = 32) (hP : renameStable32 P)
    (c0 : PfsCtx) (x0 : List NcaCtx) (k : Nat) (h : P c0) :
    P (p2Fold e o blk c0 x0 k).pfs := by
  unfold p2Fold
  refine foldl_preserves (P := fun st : P2State => P st.pfs) ?_ _ _ h
  intro st i hst
  show P (pfsRename st.pfs i (unitOutcome e o blk i (st.ctxs.getD i defaultCtx)
    (pfsEntryNameAt st.pfs i) st.upds).finalId)
  refine hP _ _ _ ?_ hst
  exact idOfHash_length _ (hsha _)

theorem ctxDataSendOne_pres (P : PfsCtx → Prop) (hP : renameStable P) (ctx : NcaCtx)
    (st : PfsCtx × List UsbEvent) (h : P st.1) : P (ctxDataSendOne ctx st).1 := by
  unfold ctxDataSendOne
  split
  · exact hP _ _ _ h
  · exact hP _ _ _ h
  · refine hP _ _ _ ?_
    refine foldl_preserves (P := fun a : (PfsCtx × List UsbEvent) × Nat => P a.1.1) ?_ _ _ h
    intro a ic ha
    exact hP _ _ _ ha
  · exact h

theorem ctxDataSendOne_pres32 (P : PfsCtx → Prop) (hP : renameStable32 P) (ctx : NcaCtx)
    (hid : ctx.idStr.length = 32) (st : PfsCtx × List UsbEvent) (h : P st.1) :
    P (ctxDataSendOne ctx st).1 := by
  unfold ctxDataSendOne
  split
  · exact hP _ _ _ hid h
  · exact hP _ _ _ hid h
  · refine hP _ _ _ hid ?_
    refine foldl_preserves (P := fun a : (PfsCtx × List UsbEvent) × Nat => P a.1.1) ?_ _ _ h
    intro a ic ha
    exact hP _ _ _ hid ha
  · exact h

/-- Every pfs mutation after the first materialization is a rename, so any
rename-stable predicate carries over to the second materialization. -/
theorem pfs2Of_pres (e : Env) (o : Opts) (P : PfsCtx → Prop) (hP : renameStable P)
    (h : P (pfs1Of e o)) : P (pfs2Of e o) := by
  have h2 : P (p2Of e o).pfs := p2Fold_pfs_pres e o BLOCK_SIZE P hP _ _ _ h
  have h3 : P (pfsAfterXml e o) := hP _ _ _ h2
  unfold pfs2Of gOf
  refine foldl_preserves (P := fun st : PfsCtx × List UsbEvent => P st.1) ?_ _ _ h3
  intro st i hst
  exact ctxDataSendOne_pres P hP _ st hst

/-- Extensions, declared sizes, payload size and entry count are identical in
the provisional and finalized tables. -/
theorem pfs2Of_shape (e : Env) (o : Opts) :
    pfsShape (pfs2Of e o) = pfsShape (pfs1Of e o) ∧
      (pfs2Of e o).fs_size = (pfs1Of e o).fs_size ∧
      (pfs2Of e o).entries.length = (pfs1Of e o).entries.length := by
  refine pfs2Of_pres e o (fun c => pfsShape c = pfsShape (pfs1Of e o) ∧
    c.fs_size = (pfs1Of e o).fs_size ∧ c.entries.length = (pfs1Of e o).entries.length)
    ?_ ⟨rfl, rfl, rfl⟩
  intro c i s h
  exact ⟨by rw [pfsRename_shape, h.1], by rw [pfsRename_fs, h.2.1],
    by rw [pfsRename_length, h.2.2]⟩

/-- The `nca_ctx` array length survives the adds. -/
theorem pfsAfterAdds_ctxs_length (e : Env) (o : Opts) (h : hasMetaB e = true) :
    (pfsAfterAdds e o).2.length = e.contents.length := by
  have h3 := (addCtxData_range_spec
    (addXmlEntry (xml1Of e o) (buildCtxs e o) (addNcaEntries (buildCtxs e o) pfsInit)).1
    (addXmlEntry (xml1Of e o) (buildCtxs e o) (addNcaEntries (buildCtxs e o) pfsInit)).2
    (e.contents.length - 1)).2.1
  show ((addCtxDataEntries e.contents.length _).2.length) = _
  unfold addCtxDataEntries
  rw [h3]
  rw [(addXmlEntry_spec (xml1Of e o) (buildCtxs e o)
    (addNcaEntries (buildCtxs e o) pfsInit)).2]
  rw [List.length_set]
  exact buildCtxs_length e o h

/-- Every pass-2 slot carries a finalized 32-hex content id. -/
theorem p2Of_ctxs_idStr_32 (e : Env) (o : Opts) (hsha : ∀ bs, (e.sha bs).length = 32)
    (hm : hasMetaB e = true) :
    ∀ j, j < e.contents.length →
      ((p2Of e o).ctxs.getD j defaultCtx).idStr.length = 32 := by
  intro j hj
  have hx0 : (pfsAfterAdds e o).2.length = e.contents.length :=
    pfsAfterAdds_ctxs_length e o hm
  have hspec := p2Fold_spec e o BLOCK_SIZE (pfs1Of e o) (pfsAfterAdds e o).2
    e.contents.length
  have hc := (hspec.2.2.2.2.2 j hj).2 (by omega)
  have hu := (hspec.2.2.2.2.2 j hj).1
  show ((p2Fold e o BLOCK_SIZE (pfs1Of e o) (pfsAfterAdds e o).2
    e.contents.length).ctxs.getD j defaultCtx).idStr.length = 32
  rw [hc]
  show (((p2Fold e o BLOCK_SIZE (pfs1Of e o) (pfsAfterAdds e o).2
    e.contents.length).units.getD j default).finalId).length = 32
  rw [hu]
  exact idOfHash_length _ (hsha _)

/-- Under well-formedness the finalized table keeps every name length, hence
the header size of the second materialization equals that of the first. -/
theorem pfs2Of_nameLens (e : Env) (o : Opts) (hwf : EnvWF e) :
    pfsNameLens (pfs2Of e o) = pfsNameLens (pfs1Of e o) ∧ P32 (pfs2Of e o) ∧
      pfsHeaderSize (pfs2Of e o) = pfsHeaderSize (pfs1Of e o) := by
  have hm : hasMetaB e = true := oneMeta_hasMetaB e hwf.2.2.2.2
  have hn : 0 < e.contents.length := contents_pos e hm
  have hP : renameStable32 (fun c => pfsNameLens c = pfsNameLens (pfs1Of e o) ∧ P32 c) := by
    intro c i s hs h
    exact ⟨by rw [pfsRename_nameLens c i s h.2 hs, h.1], pfsRename_P32 c i s h.2 hs⟩
  have h1 : pfsNameLens (p2Of e o).pfs = pfsNameLens (pfs1Of e o) ∧ P32 (p2Of e o).pfs :=
    p2Fold_pfs_pres32 e o BLOCK_SIZE _ hwf.1 hP _ _ _ ⟨rfl, pfs1Of_P32 e o hwf⟩
  have hmeta32 : (metaFinal e o).idStr.length = 32 :=
    p2Of_ctxs_idStr_32 e o hwf.1 hm (e.contents.length - 1) (by omega)
  have h2 : pfsNameLens (pfsAfterXml e o) = pfsNameLens (pfs1Of e o) ∧
      P32 (pfsAfterXml e o) := hP _ _ _ hmeta32 h1
  have h3 : pfsNameLens (pfs2Of e o) = pfsNameLens (pfs1Of e o) ∧ P32 (pfs2Of e o) := by
    unfold pfs2Of gOf
    refine foldl_preserves_mem
      (P := fun st : PfsCtx × List UsbEvent =>
        pfsNameLens st.1 = pfsNameLens (pfs1Of e o) ∧ P32 st.1) _ ?_ _ h2
    intro st i hi hst
    refine ctxDataSendOne_pres32 _ hP _ ?_ st hst
    have hilt := List.mem_range.mp hi
    exact p2Of_ctxs_idStr_32 e o hwf.1 hm i (by omega)
  exact ⟨h3.1, h3.2, pfsHeaderSize_congr _ _ h3.1⟩

/-! ### Payload accounting -/

theorem pfsAfterAdds_fsOK (e : Env) (o : Opts) : fsOK (pfsAfterAdds e o).1 := by
  unfold pfsAfterAdds addCtxDataEntries
  dsimp only
  refine foldl_preserves (P := fun st : PfsCtx × List NcaCtx => fsOK st.1)
    (fun st i hst => addCtxDataStep_fsOK st i hst) _ _ ?_
  show fsOK (addXmlEntry _ _ _).1
  apply addXmlEntry_fsOK
  apply addNcaEntries_fsOK
  rfl

theorem pfs1Of_fsOK (e : Env) (o : Opts) : fsOK (pfs1Of e o) :=
  addTikCert_fsOK _ _ _ _ (pfsAfterAdds_fsOK e o)

theorem sizes_of_shape (c c' : PfsCtx) (h : pfsShape c' = pfsShape c) :
    c'.entries.map (fun en => en.size) = c.entries.map (fun en => en.size) := by
  have h2 := congrArg (List.map Prod.snd) h
  simpa [pfsShape, List.map_map, Function.comp] using h2

/-- Environment well-formedness of the concrete environment. -/
theorem envA_wf : EnvWF envA := by
  refine ⟨fun bs => rfl, fun i => ?_, by decide, fun t => rfl, by unfold oneMeta; decide⟩
  show ((if i = 0 then _ else _ : NcaInit)).id0.length = 32
  split <;> decide

/-- C2: between the provisional and the final header materialization the
entry table's count, order and declared sizes never change — only the name
identifier parts are replaced, each 32-hex provisional identifier by another
32-hex identifier — so the header byte size produced by the second
`pfsWriteFileContextHeaderToMemoryBuffer` call equals that of the first. -/
theorem nsp_header_size_stable (e : Env) (o : Opts) (hwf : EnvWF e)
    (h : (nspDump e o).ok = true) :
    (nspDump e o).pfs2.entries.length = (nspDump e o).pfs1.entries.length ∧
      pfsShape (nspDump e o).pfs2 = pfsShape (nspDump e o).pfs1 ∧
      P32 (nspDump e o).pfs1 ∧ P32 (nspDump e o).pfs2 ∧
      pfsNameLens (nspDump e o).pfs2 = pfsNameLens (nspDump e o).pfs1 ∧
      (nspDump e o).headerSize2 = (nspDump e o).headerSize1 := by
  obtain ⟨h1, h2, h3, h4, h5, h6, h7, h8, h9, h10, h11, h12, h13, h14, h15, h16, h17⟩ :=
    nspDump_ok_fields e o h
  rw [h1, h8, h14, h15]
  refine ⟨(pfs2Of_shape e o).2.2, (pfs2Of_shape e o).1, pfs1Of_P32 e o hwf,
    (pfs2Of_nameLens e o hwf).2.1, (pfs2Of_nameLens e o hwf).1,
    (pfs2Of_nameLens e o hwf).2.2⟩

/-- Witness for C2 at the concrete two-content title. -/
theorem nsp_header_size_stable_witness :
    EnvWF envA ∧ (nspDump envA opts0).ok = true ∧
      (nspDump envA opts0).headerSize2 = (nspDump envA opts0).headerSize1 :=
  ⟨envA_wf, by decide,
    (nsp_header_size_stable envA opts0 envA_wf (by decide)).2.2.2.2.2⟩

/-- C3: for every run that reaches header materialization the announced
total package size equals the header size plus the sum of all entry payload
sizes (`nsp_size == nsp_header_size + pfs_file_ctx.fs_size`), and the
equation holds both for the provisional and for the finalized header. -/
theorem nsp_total_size_equation (e : Env) (o : Opts) (hwf : EnvWF e)
    (h : (nspDump e o).ok = true) :
    (nspDump e o).nspSize = (nspDump e o).headerSize1 + (nspDump e o).pfs1.fs_size ∧
      (nspDump e o).pfs1.fs_size
        = ((nspDump e o).pfs1.entries.map (fun en => en.size)).sum ∧
      (nspDump e o).nspSize = (nspDump e o).headerSize2 + (nspDump e o).pfs2.fs_size ∧
      (nspDump e o).pfs2.fs_size
        = ((nspDump e o).pfs2.entries.map (fun en => en.size)).sum := by
  obtain ⟨h1, h2, h3, h4, h5, h6, h7, h8, h9, h10, h11, h12, h13, h14, h15, h16, h17⟩ :=
    nspDump_ok_fields e o h
  rw [h1, h8, h9, h14, h15]
  refine ⟨rfl, pfs1Of_fsOK e o, ?_, ?_⟩
  · rw [(pfs2Of_nameLens e o hwf).2.2, (pfs2Of_shape e o).2.1]
  · rw [(pfs2Of_shape e o).2.1, sizes_of_shape _ _ (pfs2Of_shape e o).1]
    exact pfs1Of_fsOK e o

/-- Witness for C3 at the concrete two-content title. -/
theorem nsp_total_size_equation_witness :
    EnvWF envA ∧ (nspDump envA opts0).ok = true ∧
      (nspDump envA opts0).nspSize
        = (nspDump envA opts0).headerSize2 + (nspDump envA opts0).pfs2.fs_size :=
  ⟨envA_wf, by decide,
    (nsp_total_size_equation envA opts0 envA_wf (by decide)).2.2.1⟩

/-! ### The two cnmt xml generations -/

/-- C8: the title-meta (cnmt) descriptive xml is generated exactly twice per
run: once before layout with the provisional (placeholder) content id
strings, used solely to size its table entry (the entry after the nca
entries carries the first generation's byte count), and once after every
content id has been finalized; the first generation's bytes are discarded
and only the second generation's bytes are sent to the transport. -/
theorem nsp_cnmt_xml_generated_twice (e : Env) (o : Opts) (h : (nspDump e o).ok = true) :
    (nspDump e o).log.filter isGenXml
        = [.genCnmtXml (ids0Of e o), .genCnmtXml (idsFOf e o)] ∧
      (nspDump e o).log.countP isGenXml = 2 ∧
      (nspDump e o).xml1 = e.cnmtXml (ids0Of e o) ∧
      (nspDump e o).xml2 = e.cnmtXml (idsFOf e o) ∧
      ids0Of e o = (nspDump e o).ctxs0.map (fun c => c.idStr) ∧
      idsFOf e o = (nspDump e o).ctxsU.map (fun c => c.idStr) ∧
      (nspDump e o).pfs1.entries.getD e.contents.length default
        = ⟨((nspDump e o).ctxs0.getD (e.contents.length - 1) defaultCtx).idStr, ".cnmt.xml",
            (nspDump e o).xml1.length⟩ ∧
      (∃ pre post, (nspDump e o).trace
        = pre ++ [.announceFile (pfsEntryNameAt (nspDump e o).pfsU (metaFinal e o).dataIdx)
            (nspDump e o).xml2.length, .sendData (nspDump e o).xml2] ++ post) := by
  have hm : hasMetaB e = true := ((nspDump_ok_iff e o).1 h).2.1
  obtain ⟨h1, h2, h3, h4, h5, h6, h7, h8, h9, h10, h11, h12, h13, h14, h15, h16, h17⟩ :=
    nspDump_ok_fields e o h
  have hfilter : (nspDump e o).log.filter isGenXml
      = [.genCnmtXml (ids0Of e o), .genCnmtXml (idsFOf e o)] := by
    rw [h17]
    unfold log0Of
    cases hr : retrieveOf e o <;> simp [isGenXml]
  refine ⟨hfilter, ?_, by rw [h4]; rfl, by rw [h13]; rfl, by rw [h3]; rfl, by rw [h12]; rfl,
    ?_, ?_⟩
  · rw [List.countP_eq_length_filter, hfilter]
    rfl
  · rw [h1, h3, h4, pfs1Of_entries e o hm]
    set A := (buildCtxs e o).map ncaEntryOf with hA
    set x : PfsEntry := ⟨((buildCtxs e o).getD (e.contents.length - 1) defaultCtx).idStr,
      ".cnmt.xml", (xml1Of e o).length⟩ with hx
    set B := ((List.range (e.contents.length - 1)).map
      (fun i => ctxDataEntries ((buildCtxs e o).getD i defaultCtx))).flatten with hB
    set C := (if retrieveOf e o then
      [(⟨(rcOf e o).1.rightsIdStr, ".tik", (rcOf e o).1.data.length⟩ : PfsEntry),
        ⟨(rcOf e o).1.rightsIdStr, ".cert", (rcOf e o).2.length⟩] else []) with hC
    have hlen : A.length = e.contents.length := by
      rw [hA, List.length_map, buildCtxs_length e o hm]
    rw [List.getD_append _ _ _ _ (by
      rw [List.length_append, List.length_append, hlen, List.length_singleton]
      omega)]
    rw [List.getD_append _ _ _ _ (by
      rw [List.length_append, hlen, List.length_singleton]
      omega)]
    rw [← hlen, getD_append_self]
  · refine ⟨.announceNsp e.path (pfsHeaderSize (pfs1Of e o) + (pfs1Of e o).fs_size)
        (pfsHeaderSize (pfs1Of e o)) :: ((p2Of e o).units.map unitTrace).flatten,
      (gOf e o).2 ++ tikTraceOf e o ++ [.sendNspHeader (pfsHeaderSize (pfs2Of e o))], ?_⟩
    rw [h16, h11, h13]
    unfold xmlTraceOf xml2Of
    simp [List.append_assoc]

/-- Witness for C8 at the concrete two-content title. -/
theorem nsp_cnmt_xml_generated_twice_witness :
    (nspDump envA opts0).ok = true ∧ (nspDump envA opts0).log.countP isGenXml = 2 :=
  ⟨by decide, (nsp_cnmt_xml_generated_twice envA opts0 (by decide)).2.1⟩

/-! ### Option independence of the layout -/

theorem mkCtx_opts (e : Env) (o o' : Opts) (h : o.changeAcidRsa = o'.changeAcidRsa)
    (i : Nat) (ct : ContentType) : mkCtx e o i ct = mkCtx e o' i ct := by
  unfold mkCtx
  rw [h]

/-- The context array depends on the options only through `change_acid_rsa`. -/
theorem buildCtxs_opts (e : Env) (o o' : Opts) (h : o.changeAcidRsa = o'.changeAcidRsa) :
    buildCtxs e o = buildCtxs e o' := by
  unfold buildCtxs
  dsimp only
  rw [List.map_congr_left (fun p _ => mkCtx_opts e o o' h p.1 p.2)]

theorem pfsAfterAdds_opts (e : Env) (o o' : Opts) (h : o.changeAcidRsa = o'.changeAcidRsa) :
    pfsAfterAdds e o = pfsAfterAdds e o' := by
  unfold pfsAfterAdds xml1Of ids0Of
  rw [buildCtxs_opts e o o' h]

/-- No suffix produced by the add phase before the ticket entries is `.tik`
or `.cert`. -/
theorem pfsRename_noTC (c : PfsCtx) (i : Nat) (s : String)
    (h : ∀ en ∈ c.entries, en.sfx ≠ ".tik" ∧ en.sfx ≠ ".cert") :
    ∀ en ∈ (pfsRename c i s).entries, en.sfx ≠ ".tik" ∧ en.sfx ≠ ".cert" := by
  intro en hen
  rcases List.mem_or_eq_of_mem_set hen with hmem | heq
  · exact h _ hmem
  · subst heq
    by_cases hi : i < c.entries.length
    · have hmem : c.entries.getD i default ∈ c.entries := by
        rw [List.getD_eq_getElem _ _ hi]
        exact List.getElem_mem hi
      have h2 := h _ hmem
      exact ⟨h2.1, h2.2⟩
    · rw [getD_oob _ _ _ (by omega)]
      constructor
      · show ("" : String) ≠ ".tik"
        decide
      · show ("" : String) ≠ ".cert"
        decide

theorem ncaSfx_ne (ct : ContentType) : ncaSfx ct ≠ ".tik" ∧ ncaSfx ct ≠ ".cert" := by
  unfold ncaSfx
  split
  · exact ⟨by decide, by decide⟩
  · exact ⟨by decide, by decide⟩

/-- With titlekey-crypto stripping on, the first-pass table has no ticket or
certificate entries. -/
theorem pfs1Of_noTC (e : Env) (o : Opts) (hm : hasMetaB e = true)
    (hr : retrieveOf e o = false) :
    ∀ en ∈ (pfs1Of e o).entries, en.sfx ≠ ".tik" ∧ en.sfx ≠ ".cert" := by
  intro en hen
  rw [pfs1Of_entries e o hm, hr] at hen
  simp only [Bool.false_eq_true, if_false, List.append_nil] at hen
  rcases List.mem_append.mp hen with hen | hen
  · rcases List.mem_append.mp hen with hen | hen
    · rcases List.mem_map.mp hen with ⟨ctx, _, hc⟩
      rw [← hc]
      exact ncaSfx_ne ctx.ctype
    · rw [List.mem_singleton.mp hen]
      constructor
      · show (".cnmt.xml" : String) ≠ ".tik"
        decide
      · show (".cnmt.xml" : String) ≠ ".cert"
        decide
  · rcases List.mem_flatten.mp hen with ⟨l, hl, hen⟩
    rcases List.mem_map.mp hl with ⟨i, _, hli⟩
    rw [← hli] at hen
    unfold ctxDataEntries at hen
    rcases hm2 : ((buildCtxs e o).getD i defaultCtx).typeCtx with _ | tc
    · rw [hm2] at hen
      simp at hen
    · rw [hm2] at hen
      cases tc with
      | cnmt => simp at hen
      | program xml p =>
        rw [List.mem_singleton.mp hen]
        constructor
        · show (".programinfo.xml" : String) ≠ ".tik"
          decide
        · show (".programinfo.xml" : String) ≠ ".cert"
          decide
      | legal xml =>
        rw [List.mem_singleton.mp hen]
        constructor
        · show (".legalinfo.xml" : String) ≠ ".tik"
          decide
        · show (".legalinfo.xml" : String) ≠ ".cert"
          decide
      | control icons xml =>
        rcases List.mem_append.mp hen with hen | hen
        · rcases List.mem_map.mp hen with ⟨ic, _, hic⟩
          rw [← hic]
          have e1 : (".nx." : String).length = 4 := rfl
          have e2 : (".jpg" : String).length = 4 := rfl
          have e3 : (".tik" : String).length = 4 := rfl
          have e4 : (".cert" : String).length = 5 := rfl
          constructor
          · intro hc
            have h2 := congrArg String.length hc
            rw [String.length_append, String.length_append] at h2
            omega
          · intro hc
            have h2 := congrArg String.length hc
            rw [String.length_append, String.length_append] at h2
            omega
        · rw [List.mem_singleton.mp hen]
          constructor
          · show (".nacp.xml" : String) ≠ ".tik"
            decide
          · show (".nacp.xml" : String) ≠ ".cert"
            decide

/-- C4: for every title and every setting of the other options, enabling
"remove titlekey crypto" means no ticket/certificate resolution is performed
and the final entry table has no ticket or certificate entries: its entry
count is exactly 2 less than with the option disabled and a nonempty ticket
present. -/
theorem nsp_strip_crypto_drops_tik_cert (e : Env) (o : Opts)
    (htik : 0 < e.tik.data.length)
    (hok : (nspDump e { o with removeTitlekeyCrypto := true }).ok = true) :
    (nspDump e { o with removeTitlekeyCrypto := true }).log.countP
        (fun ev => decide (ev = .resolveTikCert)) = 0 ∧
      (∀ en ∈ (nspDump e { o with removeTitlekeyCrypto := true }).pfs2.entries,
        en.sfx ≠ ".tik" ∧ en.sfx ≠ ".cert") ∧
      (nspDump e { o with removeTitlekeyCrypto := true }).pfs2.entries.length + 2
        = (nspDump e { o with removeTitlekeyCrypto := false }).pfs2.entries.length := by
  have hm : hasMetaB e = true := ((nspDump_ok_iff e _).1 hok).2.1
  have hok0 : (nspDump e { o with removeTitlekeyCrypto := false }).ok = true := by
    rw [nspDump_ok_iff]
    exact (nspDump_ok_iff e _).1 hok
  obtain ⟨g1, g2, g3, g4, g5, g6, g7, g8, g9, g10, g11, g12, g13, g14, g15, g16, g17⟩ :=
    nspDump_ok_fields e { o with removeTitlekeyCrypto := true } hok
  obtain ⟨f1, f2, f3, f4, f5, f6, f7, f8, f9, f10, f11, f12, f13, f14, f15, f16, f17⟩ :=
    nspDump_ok_fields e { o with removeTitlekeyCrypto := false } hok0
  have hr1 : retrieveOf e { o with removeTitlekeyCrypto := true } = false := rfl
  have hr0 : retrieveOf e { o with removeTitlekeyCrypto := false } = true := by
    unfold retrieveOf
    simp [htik]
  refine ⟨?_, ?_, ?_⟩
  · rw [g17]
    unfold log0Of
    rw [hr1]
    simp [List.countP_cons]
  · rw [g14]
    exact pfs2Of_pres e _ (fun c => ∀ en ∈ c.entries, en.sfx ≠ ".tik" ∧ en.sfx ≠ ".cert")
      (fun c i s hc => pfsRename_noTC c i s hc) (pfs1Of_noTC e _ hm hr1)
  · rw [g14, f14, (pfs2Of_shape e _).2.2, (pfs2Of_shape e _).2.2]
    unfold pfs1Of
    rw [show (addTikCert (retrieveOf e { o with removeTitlekeyCrypto := true })
          (rcOf e { o with removeTitlekeyCrypto := true }).1
          (rcOf e { o with removeTitlekeyCrypto := true }).2
          (pfsAfterAdds e { o with removeTitlekeyCrypto := true }).1)
        = (pfsAfterAdds e { o with removeTitlekeyCrypto := true }).1 by
      unfold addTikCert
      rw [hr1]
      rfl]
    rw [show (pfsAfterAdds e { o with removeTitlekeyCrypto := true })
        = pfsAfterAdds e { o with removeTitlekeyCrypto := false } from
      pfsAfterAdds_opts e _ _ rfl]
    rw [addTikCert_entries, hr0]
    simp

/-- Witness for C4 at the concrete title with a nonempty ticket. -/
theorem nsp_strip_crypto_drops_tik_cert_witness :
    0 < envB.tik.data.length ∧
      (nspDump envB { opts0 with removeTitlekeyCrypto := true }).ok = true ∧
      (nspDump envB { opts0 with removeTitlekeyCrypto := true }).pfs2.entries.length + 2
        = (nspDump envB { opts0 with removeTitlekeyCrypto := false }).pfs2.entries.length :=
  ⟨by decide, by decide,
    (nsp_strip_crypto_drops_tik_cert envB opts0 (by decide) (by decide)).2.2⟩

/-! ### Skipped units -/

/-- With a clean (never dirty) header, the block loop forwards exactly the
raw chunks it reads, in order, and stays clean. -/
theorem streamFold_clean (u : StreamCfg) (blk : Nat) :
    ∀ (offs : List Nat) (st : StreamSt), st.dirty = false →
      (offs.foldl (blockStep u blk) st).dirty = false ∧
        (offs.foldl (blockStep u blk) st).sent
          = st.sent ++ offs.map (fun off => u.read off (min blk (u.size - off)))
  | [], _, h => ⟨h, by simp⟩
  | off :: offs, st, h => by
    have hstep : (blockStep u blk st off).dirty = false ∧
        (blockStep u blk st off).sent = st.sent ++ [u.read off (min blk (u.size - off))] := by
      constructor <;> simp [blockStep, h]
    have ih := streamFold_clean u blk offs (blockStep u blk st off) hstep.1
    refine ⟨ih.1, ?_⟩
    rw [List.foldl_cons, ih.2, hstep.2, List.map_cons]
    simp

theorem streamUnit_clean (u : StreamCfg) (blk : Nat) (h : u.dirty0 = false) :
    (streamUnit u blk).sent
      = (blockOffsets u.size blk).map (fun off => u.read off (min blk (u.size - off))) := by
  unfold streamUnit
  rw [(streamFold_clean u blk (blockOffsets u.size blk) ⟨[], [], u.dirty0, false⟩ h).2]
  rfl

/-- A unit whose pass-1 context was never touched streams its raw bytes
untouched. -/
theorem unitOutcome_clean (e : Env) (o : Opts) (blk i : Nat) (ctx : NcaCtx) (s : String)
    (w : List (String × List Byte)) (hct : ¬ ctx.ctype = .Meta)
    (hh : ctx.headerModified = false) (hp : ctx.patchFlag = false) :
    (unitOutcome e o blk i ctx s w).sent
        = (blockOffsets ctx.size blk).map (fun off => ctx.read off (min blk (ctx.size - off))) ∧
      (unitOutcome e o blk i ctx s w).announcedName = s ∧
      (unitOutcome e o blk i ctx s w).announcedSize = ctx.size := by
  unfold unitOutcome
  have hma : metaAdjust ctx = ctx := by
    unfold metaAdjust
    rw [if_neg hct]
  rw [hma]
  have hd : (mkStreamCfg e o ctx w).dirty0 = false := by
    unfold mkStreamCfg
    rw [hh, hp]
    rfl
  refine ⟨?_, rfl, rfl⟩
  show (streamUnit (mkStreamCfg e o ctx w) blk).sent = _
  rw [streamUnit_clean _ _ hd]
  rfl

/-- Indexing at any in-range position does not depend on the default. -/
theorem getD_lt_irrel {α : Type u} (l : List α) (i : Nat) (d d' : α) (h : i < l.length) :
    l.getD i d = l.getD i d' := by
  rw [List.getD_eq_getElem _ _ h, List.getD_eq_getElem _ _ h]

/-- A skipped NCA's context is the bare initialization result. -/
theorem mkCtx_skip (e : Env) (o : Opts) (i : Nat) (ct : ContentType)
    (h : skipNca (e.initNca i) = true) :
    mkCtx e o i ct
      = { ctype := ct, idStr := (e.initNca i).id0, size := (e.initNca i).size,
          rightsAvail := (e.initNca i).rightsAvail, tkRetrieved := (e.initNca i).tkRetrieved,
          read := (e.initNca i).read, writeHeader := (e.initNca i).writeHeader,
          processed := false, headerModified := false, typeCtx := none,
          patchFlag := false, dataIdx := 0 } := by
  unfold mkCtx
  dsimp only
  rw [if_pos h]

/-- The slot of the `j`-th non-meta content in the context array, with
exactly one meta content. -/
theorem buildCtxs_getD_lt (e : Env) (o : Opts) (h : oneMeta e) (j : Nat)
    (hj : j < (nonMetas e).length) :
    (buildCtxs e o).getD j defaultCtx
      = mkCtx e o ((nonMetas e).getD j (0, .Other)).1 ((nonMetas e).getD j (0, .Other)).2 := by
  obtain ⟨hb, hlen⟩ := buildCtxs_oneMeta e o h
  rw [hb]
  rw [List.getD_append _ _ _ _ (by rw [List.length_map]; omega)]
  rw [getD_lt_irrel _ _ _ (mkCtx e o ((0, ContentType.Other) : Nat × ContentType).1
    ((0, ContentType.Other) : Nat × ContentType).2) (by rw [List.length_map]; omega)]
  rw [List.getD_map]

/-- The `nca_ctx` slot after the add phase, for a slot without a content
type context, is untouched. -/
theorem ctxs1_getD_none (e : Env) (o : Opts) (hm : hasMetaB e = true) (j : Nat)
    (hj : j < e.contents.length - 1)
    (hnone : ((buildCtxs e o).getD j defaultCtx).typeCtx = none) :
    (pfsAfterAdds e o).2.getD j defaultCtx = (buildCtxs e o).getD j defaultCtx := by
  have h4 := (addCtxData_range_spec
    (addXmlEntry (xml1Of e o) (buildCtxs e o) (addNcaEntries (buildCtxs e o) pfsInit)).1
    (addXmlEntry (xml1Of e o) (buildCtxs e o) (addNcaEntries (buildCtxs e o) pfsInit)).2
    (e.contents.length - 1)).2.2.2 j hj
  have hset : ((addXmlEntry (xml1Of e o) (buildCtxs e o)
      (addNcaEntries (buildCtxs e o) pfsInit)).2).getD j defaultCtx
      = (buildCtxs e o).getD j defaultCtx := by
    rw [(addXmlEntry_spec (xml1Of e o) (buildCtxs e o)
      (addNcaEntries (buildCtxs e o) pfsInit)).2]
    rw [buildCtxs_length e o hm]
    exact getD_set_ne _ _ _ _ _ (by omega)
  show ((addCtxDataEntries e.contents.length _).2.getD j defaultCtx) = _
  unfold addCtxDataEntries
  rw [h4, hset]
  unfold ctxDataAdjust
  rw [hnone]

/-- C7: a content unit whose rights material is unavailable (rights id
present but no retrieved titlekey) is skipped by all pass-1 per-unit
processing — no option-driven transformation, no metadata context, no header
re-encryption, no pending patch — yet it still occupies its package slot:
the table keeps an entry with its provisional identifier and size, and its
untouched raw bytes are still announced and streamed in pass 2. -/
theorem nsp_skipped_unit_keeps_slot (e : Env) (o : Opts) (j i : Nat) (ct : ContentType)
    (hwf : EnvWF e) (hok : (nspDump e o).ok = true) (hj : j < (nonMetas e).length)
    (hp : (nonMetas e).getD j (0, .Other) = (i, ct))
    (hskip : skipNca (e.initNca i) = true) :
    ((nspDump e o).ctxs0.getD j defaultCtx).processed = false ∧
      ((nspDump e o).ctxs0.getD j defaultCtx).typeCtx = none ∧
      ((nspDump e o).ctxs0.getD j defaultCtx).headerModified = false ∧
      ((nspDump e o).ctxs0.getD j defaultCtx).patchFlag = false ∧
      (nspDump e o).pfs1.entries.getD j default
        = ⟨(e.initNca i).id0, ".nca", (e.initNca i).size⟩ ∧
      ((nspDump e o).units.getD j default).announcedName = (e.initNca i).id0 ++ ".nca" ∧
      ((nspDump e o).units.getD j default).announcedSize = (e.initNca i).size ∧
      ((nspDump e o).units.getD j default).sent
        = (blockOffsets (e.initNca i).size BLOCK_SIZE).map
            (fun off => (e.initNca i).read off (min BLOCK_SIZE ((e.initNca i).size - off))) := by
  have hone := hwf.2.2.2.2
  have hm : hasMetaB e = true := oneMeta_hasMetaB e hone
  have hnm : (nonMetas e).length = e.contents.length - 1 := (buildCtxs_oneMeta e o hone).2
  have hn : 0 < e.contents.length := contents_pos e hm
  have hctm : ¬ ct = ContentType.Meta := by
    have hmem : (nonMetas e).getD j (0, .Other) ∈ nonMetas e := by
      rw [List.getD_eq_getElem _ _ hj]
      exact List.getElem_mem hj
    rw [hp] at hmem
    exact nonMetasAux_not_meta e.contents 0 _ hmem
  obtain ⟨h1, h2, h3, h4, h5, h6, h7, h8, h9, h10, h11, h12, h13, h14, h15, h16, h17⟩ :=
    nspDump_ok_fields e o hok
  have hctx0 : (buildCtxs e o).getD j defaultCtx
      = { ctype := ct, idStr := (e.initNca i).id0, size := (e.initNca i).size,
          rightsAvail := (e.initNca i).rightsAvail, tkRetrieved := (e.initNca i).tkRetrieved,
          read := (e.initNca i).read, writeHeader := (e.initNca i).writeHeader,
          processed := false, headerModified := false, typeCtx := none,
          patchFlag := false, dataIdx := 0 } := by
    rw [buildCtxs_getD_lt e o hone j hj, hp]
    exact mkCtx_skip e o i ct hskip
  have hentry : (pfs1Of e o).entries.getD j default
      = ⟨(e.initNca i).id0, ".nca", (e.initNca i).size⟩ := by
    rw [pfs1Of_entries e o hm]
    have hlt : j < ((buildCtxs e o).map ncaEntryOf).length := by
      rw [List.length_map, buildCtxs_length e o hm]
      omega
    rw [List.getD_append _ _ _ _ (by
        rw [List.length_append, List.length_append, List.length_singleton]
        omega),
      List.getD_append _ _ _ _ (by
        rw [List.length_append, List.length_singleton]
        omega),
      List.getD_append _ _ _ _ hlt]
    rw [getD_lt_irrel _ _ _ (ncaEntryOf defaultCtx) hlt, List.getD_map, hctx0]
    unfold ncaEntryOf ncaSfx
    rw [if_neg hctm]
  have hx0 : (pfsAfterAdds e o).2.getD j defaultCtx = (buildCtxs e o).getD j defaultCtx :=
    ctxs1_getD_none e o hm j (by omega) (by rw [hctx0])
  have hspec := p2Fold_spec e o BLOCK_SIZE (pfs1Of e o) (pfsAfterAdds e o).2
    e.contents.length
  have hunit := (hspec.2.2.2.2.2 j (by omega)).1
  have hclean := unitOutcome_clean e o BLOCK_SIZE j ((buildCtxs e o).getD j defaultCtx)
    (entryName ((pfs1Of e o).entries.getD j default))
    (((p2Of e o).units.take j).map (fun u => (u.finalId, u.finalHash)))
    (by rw [hctx0]; exact hctm) (by rw [hctx0]) (by rw [hctx0])
  have huget : (nspDump e o).units.getD j default
      = unitOutcome e o BLOCK_SIZE j ((buildCtxs e o).getD j defaultCtx)
          (entryName ((pfs1Of e o).entries.getD j default))
          (((p2Of e o).units.take j).map (fun u => (u.finalId, u.finalHash))) := by
    rw [h10]
    show (p2Fold e o BLOCK_SIZE (pfs1Of e o) (pfsAfterAdds e o).2
      e.contents.length).units.getD j default = _
    rw [hunit, hx0]
    rfl
  refine ⟨by rw [h3, hctx0], by rw [h3, hctx0], by rw [h3, hctx0], by rw [h3, hctx0],
    by rw [h1]; exact hentry, ?_, ?_, ?_⟩
  · rw [huget, hclean.2.1, hentry]
    rfl
  · rw [huget, hclean.2.2, hctx0]
  · rw [huget, hclean.1, hctx0]

/-- Environment well-formedness of the skipped-unit environment. -/
theorem envC_wf : EnvWF envC := by
  refine ⟨fun bs => rfl, fun i => ?_, by decide, fun t => rfl, by unfold oneMeta; decide⟩
  show ((if i = 0 then _ else _ : NcaInit)).id0.length = 32
  split <;> decide

/-- Witness for C7 at a title whose program content lacks a titlekey. -/
theorem nsp_skipped_unit_keeps_slot_witness :
    EnvWF envC ∧ (nspDump envC opts0).ok = true ∧ 0 < (nonMetas envC).length ∧
      (nonMetas envC).getD 0 (0, .Other) = (0, .Program) ∧
      skipNca (envC.initNca 0) = true ∧
      (nspDump envC opts0).pfs1.entries.getD 0 default
        = ⟨(envC.initNca 0).id0, ".nca", (envC.initNca 0).size⟩ :=
  ⟨envC_wf, by decide, by decide, by decide, by decide,
    (nsp_skipped_unit_keeps_slot envC opts0 0 0 .Program envC_wf (by decide) (by decide)
      (by decide) (by decide)).2.2.2.2.1⟩

/-! ### The meta slot is always last -/

theorem mkCtx_ctype (e : Env) (o : Opts) (i : Nat) (ct : ContentType) :
    (mkCtx e o i ct).ctype = ct := by
  unfold mkCtx
  dsimp only
  split
  · rfl
  · rfl

/-- Equal shapes give equal extensions and sizes at every index. -/
theorem getD_shape_eq (c c' : PfsCtx) (h : pfsShape c' = pfsShape c) (k : Nat) :
    ((c'.entries.getD k default).sfx, (c'.entries.getD k default).size)
      = ((c.entries.getD k default).sfx, (c.entries.getD k default).size) := by
  have h3 := congrArg (fun l => l.getD k ((default : PfsEntry).sfx, (default : PfsEntry).size)) h
  simp only [pfsShape] at h3
  rw [show ((default : PfsEntry).sfx, (default : PfsEntry).size)
      = (fun en => (en.sfx, en.size)) (default : PfsEntry) from rfl] at h3
  rw [List.getD_map, List.getD_map] at h3
  exact h3

/-- C10: the meta content unit always occupies the last content slot — its
context sits at index `content_count - 1` of the `nca_ctx` array regardless
of its position in the title's content-info list — so the meta `.cnmt.nca`
entry is always the last content-archive entry in the table, immediately
followed by the cnmt xml entry; the suffix layout carries over to the
finalized table. -/
theorem nsp_meta_always_last_slot (e : Env) (o : Opts) (hwf : EnvWF e)
    (hok : (nspDump e o).ok = true) :
    (nspDump e o).ctxs0.getD (e.contents.length - 1) defaultCtx = mkMetaCtx e ∧
      ((nspDump e o).ctxs0.getD (e.contents.length - 1) defaultCtx).ctype = .Meta ∧
      (∀ j, j < e.contents.length - 1 →
        ¬ ((nspDump e o).ctxs0.getD j defaultCtx).ctype = .Meta) ∧
      ((nspDump e o).pfs1.entries.getD (e.contents.length - 1) default).sfx = ".cnmt.nca" ∧
      ((nspDump e o).pfs1.entries.getD (e.contents.length - 1) default).idPart
        = (e.initNca (metaIdx e)).id0 ∧
      ((nspDump e o).pfs1.entries.getD e.contents.length default).sfx = ".cnmt.xml" ∧
      (∀ j, j < e.contents.length - 1 →
        ((nspDump e o).pfs1.entries.getD j default).sfx = ".nca") ∧
      ((nspDump e o).pfs2.entries.getD (e.contents.length - 1) default).sfx = ".cnmt.nca" ∧
      ((nspDump e o).pfs2.entries.getD e.contents.length default).sfx = ".cnmt.xml" := by
  have hone := hwf.2.2.2.2
  have hm : hasMetaB e = true := oneMeta_hasMetaB e hone
  have hn : 0 < e.contents.length := contents_pos e hm
  obtain ⟨hb, hnm⟩ := buildCtxs_oneMeta e o hone
  have hL : (buildCtxs e o).length = e.contents.length := buildCtxs_length e o hm
  obtain ⟨h1, h2, h3, h4, h5, h6, h7, h8, h9, h10, h11, h12, h13, h14, h15, h16, h17⟩ :=
    nspDump_ok_fields e o hok
  have hmeta : (buildCtxs e o).getD (e.contents.length - 1) defaultCtx = mkMetaCtx e := by
    rw [hb]
    rw [show e.contents.length - 1
        = ((nonMetas e).map (fun p => mkCtx e o p.1 p.2)).length by
      rw [List.length_map, hnm]]
    exact getD_append_self _ _ _
  have hjlt : ∀ j, j < e.contents.length - 1 →
      (buildCtxs e o).getD j defaultCtx
        = mkCtx e o ((nonMetas e).getD j (0, .Other)).1 ((nonMetas e).getD j (0, .Other)).2 ∧
        ¬ ((nonMetas e).getD j (0, .Other)).2 = ContentType.Meta := by
    intro j hj
    have hjn : j < (nonMetas e).length := by omega
    refine ⟨buildCtxs_getD_lt e o hone j hjn, ?_⟩
    have hmem : (nonMetas e).getD j (0, .Other) ∈ nonMetas e := by
      rw [List.getD_eq_getElem _ _ hjn]
      exact List.getElem_mem hjn
    exact nonMetasAux_not_meta e.contents 0 _ hmem
  have hmetaEntry : (pfs1Of e o).entries.getD (e.contents.length - 1) default
      = ncaEntryOf (mkMetaCtx e) := by
    rw [pfs1Of_entries e o hm]
    have hlt : e.contents.length - 1 < ((buildCtxs e o).map ncaEntryOf).length := by
      rw [List.length_map, hL]
      omega
    rw [List.getD_append _ _ _ _ (by
        rw [List.length_append, List.length_append, List.length_singleton]
        omega),
      List.getD_append _ _ _ _ (by
        rw [List.length_append, List.length_singleton]
        omega),
      List.getD_append _ _ _ _ hlt]
    rw [getD_lt_irrel _ _ _ (ncaEntryOf defaultCtx) hlt, List.getD_map, hmeta]
  have hxmlEntry : (pfs1Of e o).entries.getD e.contents.length default
      = ⟨((buildCtxs e o).getD (e.contents.length - 1) defaultCtx).idStr, ".cnmt.xml",
          (xml1Of e o).length⟩ := by
    rw [pfs1Of_entries e o hm]
    have hlen : ((buildCtxs e o).map ncaEntryOf).length = e.contents.length := by
      rw [List.length_map, hL]
    rw [List.getD_append _ _ _ _ (by
        rw [List.length_append, List.length_append, List.length_singleton, hlen]
        omega),
      List.getD_append _ _ _ _ (by
        rw [List.length_append, List.length_singleton, hlen]
        omega)]
    rw [← hlen, getD_append_self]
  have hjEntry : ∀ j, j < e.contents.length - 1 →
      ((pfs1Of e o).entries.getD j default).sfx = ".nca" := by
    intro j hj
    rw [pfs1Of_entries e o hm]
    have hlt : j < ((buildCtxs e o).map ncaEntryOf).length := by
      rw [List.length_map, hL]
      omega
    rw [List.getD_append _ _ _ _ (by
        rw [List.length_append, List.length_append, List.length_singleton]
        omega),
      List.getD_append _ _ _ _ (by
        rw [List.length_append, List.length_singleton]
        omega),
      List.getD_append _ _ _ _ hlt]
    rw [getD_lt_irrel _ _ _ (ncaEntryOf defaultCtx) hlt, List.getD_map, (hjlt j hj).1]
    show ncaSfx (mkCtx e o _ _).ctype = ".nca"
    rw [mkCtx_ctype]
    unfold ncaSfx
    rw [if_neg (hjlt j hj).2]
  refine ⟨by rw [h3]; exact hmeta, by rw [h3, hmeta]; rfl,
    fun j hj => by rw [h3, (hjlt j hj).1, mkCtx_ctype]; exact (hjlt j hj).2,
    by rw [h1, hmetaEntry]; rfl, by rw [h1, hmetaEntry]; exact mkMetaCtx_idStr e,
    by rw [h1, hxmlEntry], fun j hj => by rw [h1]; exact hjEntry j hj, ?_, ?_⟩
  · rw [h14]
    have hp := congrArg Prod.fst (getD_shape_eq (pfs1Of e o) (pfs2Of e o)
      (pfs2Of_shape e o).1 (e.contents.length - 1))
    dsimp only at hp
    rw [hp, hmetaEntry]
    rfl
  · rw [h14]
    have hp := congrArg Prod.fst (getD_shape_eq (pfs1Of e o) (pfs2Of e o)
      (pfs2Of_shape e o).1 e.contents.length)
    dsimp only at hp
    rw [hp, hxmlEntry]

/-- Environment well-formedness of the meta-first environment. -/
theorem envE_wf : EnvWF envE := by
  refine ⟨fun bs => rfl, fun i => ?_, by decide, fun t => rfl, by unfold oneMeta; decide⟩
  show ((if i = 0 then _ else _ : NcaInit)).id0.length = 32
  split <;> decide

/-- Witness for C10 at a title whose meta content is listed first. -/
theorem nsp_meta_always_last_slot_witness :
    EnvWF envE ∧ (nspDump envE opts0).ok = true ∧
      ((nspDump envE opts0).pfs1.entries.getD 1 default).sfx = ".cnmt.nca" ∧
      ((nspDump envE opts0).pfs1.entries.getD 2 default).sfx = ".cnmt.xml" :=
  ⟨envE_wf, by decide,
    (nsp_meta_always_last_slot envE opts0 envE_wf (by decide)).2.2.2.1,
    (nsp_meta_always_last_slot envE opts0 envE_wf (by decide)).2.2.2.2.2.1⟩

/-! ### The ticket and certificate entries stay last -/

theorem metaAdjust_dataIdx (c : NcaCtx) : (metaAdjust c).dataIdx = c.dataIdx := by
  unfold metaAdjust
  split
  · rfl
  · rfl

theorem metaAdjust_typeCtx (c : NcaCtx) : (metaAdjust c).typeCtx = c.typeCtx := by
  unfold metaAdjust
  split
  · rfl
  · rfl

theorem ctxDataAdjust_typeCtx (c : NcaCtx) (b : Nat) :
    (ctxDataAdjust c b).typeCtx = c.typeCtx := by
  rcases h : c.typeCtx with _ | tc
  · simp [ctxDataAdjust, h]
  · cases tc with
    | cnmt => simp [ctxDataAdjust, h]
    | program xml p => simp [ctxDataAdjust, h]
    | control icons xml =>
      by_cases hic : icons.isEmpty
      · simp [ctxDataAdjust, h, hic]
      · simp [ctxDataAdjust, h, hic]
    | legal xml => simp [ctxDataAdjust, h]

theorem mkCtx_dataIdx (e : Env) (o : Opts) (i : Nat) (ct : ContentType) :
    (mkCtx e o i ct).dataIdx = 0 := by
  unfold mkCtx
  dsimp only
  split
  · rfl
  · rfl

/-- Length monotonicity of the per-slot entry flattening. -/
theorem flats_mono (g : Nat → List PfsEntry) : ∀ a b : Nat, a ≤ b →
    ((List.range a).map g).flatten.length ≤ ((List.range b).map g).flatten.length := by
  intro a b hab
  induction b with
  | zero =>
    have : a = 0 := by omega
    subst this
    exact Nat.le_refl _
  | succ b ih =>
    rcases Nat.lt_or_ge a (b + 1) with hlt | hge
    · have h1 := ih (by omega)
      rw [List.range_succ, List.map_append, List.flatten_append, List.length_append]
      omega
    · have : a = b + 1 := by omega
      subst this
      exact Nat.le_refl _

/-- One flattening step. -/
theorem flats_succ (g : Nat → List PfsEntry) (a : Nat) :
    ((List.range (a + 1)).map g).flatten.length
      = ((List.range a).map g).flatten.length + (g a).length := by
  rw [List.range_succ, List.map_append, List.flatten_append, List.length_append]
  simp

/-- The table length right before the ticket and certificate entries. -/
theorem pfsAfterAdds_entries_len (e : Env) (o : Opts) (hm : hasMetaB e = true) :
    (pfsAfterAdds e o).1.entries.length
      = e.contents.length + 1
        + ((List.range (e.contents.length - 1)).map
            (fun i => ctxDataEntries ((buildCtxs e o).getD i defaultCtx))).flatten.length := by
  have h1 : (pfs1Of e o).entries = (addTikCert (retrieveOf e o) (rcOf e o).1 (rcOf e o).2
      (pfsAfterAdds e o).1).entries := rfl
  have h2 := pfs1Of_entries e o hm
  rw [h1, addTikCert_entries] at h2
  have h3 := congrArg List.length h2
  rw [List.length_append, List.length_append, List.length_append, List.length_append,
    List.length_map, List.length_singleton, buildCtxs_length e o hm] at h3
  omega

/-- The `nca_ctx` slot after the add phase, in general form. -/
theorem ctxs1_getD_lt (e : Env) (o : Opts) (hm : hasMetaB e = true) (j : Nat)
    (hj : j < e.contents.length - 1) :
    (pfsAfterAdds e o).2.getD j defaultCtx
      = ctxDataAdjust ((buildCtxs e o).getD j defaultCtx)
          (e.contents.length + 1
            + ((List.range j).map
                (fun i => ctxDataEntries ((buildCtxs e o).getD i defaultCtx))).flatten.length) := by
  have h4 := (addCtxData_range_spec
    (addXmlEntry (xml1Of e o) (buildCtxs e o) (addNcaEntries (buildCtxs e o) pfsInit)).1
    (addXmlEntry (xml1Of e o) (buildCtxs e o) (addNcaEntries (buildCtxs e o) pfsInit)).2
    (e.contents.length - 1)).2.2.2 j hj
  have hset : ∀ i, i < e.contents.length - 1 →
      ((addXmlEntry (xml1Of e o) (buildCtxs e o)
        (addNcaEntries (buildCtxs e o) pfsInit)).2).getD i defaultCtx
        = (buildCtxs e o).getD i defaultCtx := by
    intro i hi
    rw [(addXmlEntry_spec (xml1Of e o) (buildCtxs e o)
      (addNcaEntries (buildCtxs e o) pfsInit)).2]
    rw [buildCtxs_length e o hm]
    exact getD_set_ne _ _ _ _ _ (by omega)
  have hc1 : ((addXmlEntry (xml1Of e o) (buildCtxs e o)
      (addNcaEntries (buildCtxs e o) pfsInit)).1).entries.length
      = e.contents.length + 1 := by
    rw [(addXmlEntry_spec (xml1Of e o) (buildCtxs e o)
      (addNcaEntries (buildCtxs e o) pfsInit)).1]
    rw [List.length_append, addNcaEntries_entries, List.length_singleton]
    simp [pfsInit, buildCtxs_length e o hm]
  have hmap : (List.range j).map
        (fun i => ctxDataEntries (((addXmlEntry (xml1Of e o) (buildCtxs e o)
          (addNcaEntries (buildCtxs e o) pfsInit)).2).getD i defaultCtx))
      = (List.range j).map
        (fun i => ctxDataEntries ((buildCtxs e o).getD i defaultCtx)) := by
    refine List.map_congr_left ?_
    intro i hi
    rw [hset i (by have := List.mem_range.mp hi; omega)]
  show ((addCtxDataEntries e.contents.length _).2.getD j defaultCtx) = _
  unfold addCtxDataEntries
  rw [h4, hset j hj, hc1, hmap]

/-- The meta slot after the add phase records the cnmt xml entry index. -/
theorem ctxs1_getD_meta (e : Env) (o : Opts) (hm : hasMetaB e = true) :
    (pfsAfterAdds e o).2.getD (e.contents.length - 1) defaultCtx
      = { (buildCtxs e o).getD (e.contents.length - 1) defaultCtx with
          dataIdx := e.contents.length } := by
  have hn : 0 < e.contents.length := contents_pos e hm
  have h5 := (addCtxData_range_spec
    (addXmlEntry (xml1Of e o) (buildCtxs e o) (addNcaEntries (buildCtxs e o) pfsInit)).1
    (addXmlEntry (xml1Of e o) (buildCtxs e o) (addNcaEntries (buildCtxs e o) pfsInit)).2
    (e.contents.length - 1)).2.2.1 (e.contents.length - 1) (Nat.le_refl _)
  show ((addCtxDataEntries e.contents.length _).2.getD (e.contents.length - 1) defaultCtx) = _
  unfold addCtxDataEntries
  rw [h5]
  rw [(addXmlEntry_spec (xml1Of e o) (buildCtxs e o)
    (addNcaEntries (buildCtxs e o) pfsInit)).2]
  rw [buildCtxs_length e o hm]
  rw [getD_set_self _ _ _ _ (by rw [buildCtxs_length e o hm]; omega)]
  rw [show (addNcaEntries (buildCtxs e o) pfsInit).entries.length = e.contents.length by
    rw [addNcaEntries_entries]
    simp [pfsInit, buildCtxs_length e o hm]]

/-- The ctx-data send span of a slot depends only on its content-type
context. -/
theorem ctxDataSpan_congr (a b : NcaCtx) (h : a.typeCtx = b.typeCtx) :
    ctxDataSpan a = ctxDataSpan b := by
  unfold ctxDataSpan
  rw [h]

/-- Every slot of the pass-1 context array starts with a zero ctx-data
index. -/
theorem buildCtxs_dataIdx (e : Env) (o : Opts) (j : Nat) :
    ((buildCtxs e o).getD j defaultCtx).dataIdx = 0 := by
  have hall : ∀ ctx ∈ buildCtxs e o, ctx.dataIdx = 0 := by
    intro ctx hctx
    simp only [buildCtxs] at hctx
    rcases List.mem_append.mp hctx with h | h
    · rcases List.mem_append.mp h with h | h
      · rcases List.mem_map.mp h with ⟨p, _, hp⟩
        rw [← hp]
        exact mkCtx_dataIdx e o p.1 p.2
      · rw [List.eq_of_mem_replicate h]
        rfl
    · rw [List.mem_singleton.mp h]
      rfl
  rcases Nat.lt_or_ge j (buildCtxs e o).length with hj | hj
  · refine hall _ ?_
    rw [List.getD_eq_getElem _ _ hj]
    exact List.getElem_mem hj
  · rw [getD_oob _ _ _ hj]
    rfl

/-- After the ctx-data index adjustment at table length `b`, all renames the
slot will perform stay below `b` plus the number of entries it contributed
(provided the index started at zero, as pass-1 initialization guarantees). -/
theorem ctxDataAdjust_bound (c : NcaCtx) (b : Nat) (h0 : c.dataIdx = 0) :
    (ctxDataAdjust c b).dataIdx + ctxDataSpan (ctxDataAdjust c b)
      ≤ b + (ctxDataEntries c).length := by
  rcases h : c.typeCtx with _ | tc
  · simp [ctxDataAdjust, ctxDataSpan, ctxDataEntries, h, h0]
  · cases tc with
    | cnmt => simp [ctxDataAdjust, ctxDataSpan, ctxDataEntries, h, h0]
    | program xml p =>
      simp [ctxDataAdjust, ctxDataSpan, ctxDataEntries, h]
    | control icons xml =>
      by_cases hic : icons.isEmpty
      · have hnil : icons = [] := by
          cases icons
          · rfl
          · simp [List.isEmpty] at hic
        subst hnil
        simp [ctxDataAdjust, ctxDataSpan, ctxDataEntries, h, h0]
      · simp [ctxDataAdjust, ctxDataSpan, ctxDataEntries, h, hic]
    | legal xml =>
      simp [ctxDataAdjust, ctxDataSpan, ctxDataEntries, h]

/-- The icon send loop of lines 630-650: the running entry index advances by
one per icon, and entries at or beyond the final index are untouched. -/
theorem iconsSendFold (s : String) :
    ∀ (icons : List (String × List Byte)) (a : (PfsCtx × List UsbEvent) × Nat),
      ((icons.foldl
        (fun a ic =>
          ((pfsRename a.1.1 a.2 s,
            a.1.2 ++ [.announceFile (pfsEntryNameAt a.1.1 a.2) ic.2.length, .sendData ic.2]),
            a.2 + 1)) a).2 = a.2 + icons.length)
      ∧ ∀ m, a.2 + icons.length ≤ m →
          (icons.foldl
            (fun a ic =>
              ((pfsRename a.1.1 a.2 s,
                a.1.2 ++ [.announceFile (pfsEntryNameAt a.1.1 a.2) ic.2.length,
                  .sendData ic.2]),
                a.2 + 1)) a).1.1.entries.getD m default
            = a.1.1.entries.getD m default
  | [], a => ⟨by simp, fun m _ => rfl⟩
  | ic :: icons, a => by
    have ih := iconsSendFold s icons
      ((pfsRename a.1.1 a.2 s,
        a.1.2 ++ [.announceFile (pfsEntryNameAt a.1.1 a.2) ic.2.length, .sendData ic.2]),
        a.2 + 1)
    constructor
    · rw [List.foldl_cons, ih.1]
      show a.2 + 1 + icons.length = a.2 + (ic :: icons).length
      rw [List.length_cons]
      omega
    · intro m hm
      rw [List.foldl_cons, ih.2 m (by simp at hm; omega)]
      exact pfsRename_getD_ne _ _ _ _ (by simp at hm; omega)

/-- One slot of the ctx-data send loop never touches entries at or beyond
its adjusted index plus its span. -/
theorem ctxDataSendOne_tail (ctx : NcaCtx) (st : PfsCtx × List UsbEvent) (B m : Nat)
    (hm : B ≤ m) (hb : ctx.dataIdx + ctxDataSpan ctx ≤ B) :
    (ctxDataSendOne ctx st).1.entries.getD m default = st.1.entries.getD m default := by
  rcases h : ctx.typeCtx with _ | tc
  · have hred : ctxDataSendOne ctx st = st := by
      unfold ctxDataSendOne
      rw [h]
    rw [hred]
  · cases tc with
    | cnmt =>
      have hred : ctxDataSendOne ctx st = st := by
        unfold ctxDataSendOne
        rw [h]
      rw [hred]
    | program xml p =>
      have hsp : ctxDataSpan ctx = 1 := by
        unfold ctxDataSpan
        rw [h]
      have hred : ctxDataSendOne ctx st = ctxDataSend1 st ctx.dataIdx xml ctx.idStr := by
        unfold ctxDataSendOne
        rw [h]
      rw [hred]
      show (pfsRename st.1 ctx.dataIdx ctx.idStr).entries.getD m default = _
      exact pfsRename_getD_ne _ _ _ _ (by omega)
    | legal xml =>
      have hsp : ctxDataSpan ctx = 1 := by
        unfold ctxDataSpan
        rw [h]
      have hred : ctxDataSendOne ctx st = ctxDataSend1 st ctx.dataIdx xml ctx.idStr := by
        unfold ctxDataSendOne
        rw [h]
      rw [hred]
      show (pfsRename st.1 ctx.dataIdx ctx.idStr).entries.getD m default = _
      exact pfsRename_getD_ne _ _ _ _ (by omega)
    | control icons xml =>
      have hsp : ctxDataSpan ctx = icons.length + 1 := by
        unfold ctxDataSpan
        rw [h]
      have hred : ctxDataSendOne ctx st
          = ctxDataSend1
              (icons.foldl
                (fun a ic =>
                  ((pfsRename a.1.1 a.2 ctx.idStr,
                    a.1.2 ++ [.announceFile (pfsEntryNameAt a.1.1 a.2) ic.2.length,
                      .sendData ic.2]),
                    a.2 + 1)) ((st.1, st.2), ctx.dataIdx)).1
              (icons.foldl
                (fun a ic =>
                  ((pfsRename a.1.1 a.2 ctx.idStr,
                    a.1.2 ++ [.announceFile (pfsEntryNameAt a.1.1 a.2) ic.2.length,
                      .sendData ic.2]),
                    a.2 + 1)) ((st.1, st.2), ctx.dataIdx)).2 xml ctx.idStr := by
        unfold ctxDataSendOne
        rw [h]
      rw [hred]
      have h2 := (iconsSendFold ctx.idStr icons ((st.1, st.2), ctx.dataIdx)).1
      have h3 := (iconsSendFold ctx.idStr icons ((st.1, st.2), ctx.dataIdx)).2 m (by omega)
      show (pfsRename
          (icons.foldl
            (fun a ic =>
              ((pfsRename a.1.1 a.2 ctx.idStr,
                a.1.2 ++ [.announceFile (pfsEntryNameAt a.1.1 a.2) ic.2.length,
                  .sendData ic.2]),
                a.2 + 1)) ((st.1, st.2), ctx.dataIdx)).1.1
          (icons.foldl
            (fun a ic =>
              ((pfsRename a.1.1 a.2 ctx.idStr,
                a.1.2 ++ [.announceFile (pfsEntryNameAt a.1.1 a.2) ic.2.length,
                  .sendData ic.2]),
                a.2 + 1)) ((st.1, st.2), ctx.dataIdx)).2
          ctx.idStr).entries.getD m default = st.1.entries.getD m default
      rw [pfsRename_getD_ne _ _ _ _ (by rw [h2]; omega)]
      exact h3

/-- Renames performed by the slot `i` of the ctx-data send loop stay below
the pre-ticket table length. -/
theorem gSlot_bound (e : Env) (o : Opts) (hm : hasMetaB e = true) (i : Nat)
    (hi : i < e.contents.length - 1) :
    ((p2Of e o).ctxs.getD i defaultCtx).dataIdx
      + ctxDataSpan ((p2Of e o).ctxs.getD i defaultCtx)
      ≤ (pfsAfterAdds e o).1.entries.length := by
  have hxlen : (pfsAfterAdds e o).2.length = e.contents.length :=
    pfsAfterAdds_ctxs_length e o hm
  have h6 := ((p2Fold_spec e o BLOCK_SIZE (pfs1Of e o) (pfsAfterAdds e o).2
      e.contents.length).2.2.2.2.2 i (by omega)).2 (by rw [hxlen]; omega)
  show ((p2Fold e o BLOCK_SIZE (pfs1Of e o) (pfsAfterAdds e o).2
        e.contents.length).ctxs.getD i defaultCtx).dataIdx
      + ctxDataSpan ((p2Fold e o BLOCK_SIZE (pfs1Of e o) (pfsAfterAdds e o).2
        e.contents.length).ctxs.getD i defaultCtx)
      ≤ (pfsAfterAdds e o).1.entries.length
  rw [h6]
  show (metaAdjust ((pfsAfterAdds e o).2.getD i defaultCtx)).dataIdx
      + ctxDataSpan (metaAdjust ((pfsAfterAdds e o).2.getD i defaultCtx))
      ≤ (pfsAfterAdds e o).1.entries.length
  rw [metaAdjust_dataIdx, ctxDataSpan_congr _ _ (metaAdjust_typeCtx _)]
  rw [ctxs1_getD_lt e o hm i hi]
  refine le_trans (ctxDataAdjust_bound _ _ (buildCtxs_dataIdx e o i)) ?_
  rw [pfsAfterAdds_entries_len e o hm]
  have hs := flats_succ (fun k => ctxDataEntries ((buildCtxs e o).getD k defaultCtx)) i
  have hmo := flats_mono (fun k => ctxDataEntries ((buildCtxs e o).getD k defaultCtx)) (i + 1)
    (e.contents.length - 1) (by omega)
  omega

/-- The meta slot's recorded ctx-data index after pass 2 is the cnmt xml
entry index (the content count). -/
theorem metaFinal_dataIdx (e : Env) (o : Opts) (hmB : hasMetaB e = true) :
    (metaFinal e o).dataIdx = e.contents.length := by
  have hn : 0 < e.contents.length := contents_pos e hmB
  have hxlen : (pfsAfterAdds e o).2.length = e.contents.length :=
    pfsAfterAdds_ctxs_length e o hmB
  have h6 := ((p2Fold_spec e o BLOCK_SIZE (pfs1Of e o) (pfsAfterAdds e o).2
      e.contents.length).2.2.2.2.2 (e.contents.length - 1) (by omega)).2
    (by rw [hxlen]; omega)
  show ((p2Fold e o BLOCK_SIZE (pfs1Of e o) (pfsAfterAdds e o).2
      e.contents.length).ctxs.getD (e.contents.length - 1) defaultCtx).dataIdx
      = e.contents.length
  rw [h6]
  show (metaAdjust ((pfsAfterAdds e o).2.getD (e.contents.length - 1)
      defaultCtx)).dataIdx = e.contents.length
  rw [metaAdjust_dataIdx, ctxs1_getD_meta e o hmB]

/-- Entries at or beyond the pre-ticket table length — in particular the
ticket and certificate entries — survive every rename between the two header
materializations. -/
theorem pfs2Of_getD_tail (e : Env) (o : Opts) (hwf : EnvWF e) (m : Nat)
    (hm : (pfsAfterAdds e o).1.entries.length ≤ m) :
    (pfs2Of e o).entries.getD m default = (pfs1Of e o).entries.getD m default := by
  have hmB : hasMetaB e = true := oneMeta_hasMetaB e hwf.2.2.2.2
  have hn : 0 < e.contents.length := contents_pos e hmB
  have hL1 := pfsAfterAdds_entries_len e o hmB
  have hA : (p2Of e o).pfs.entries.getD m default
      = (pfs1Of e o).entries.getD m default :=
    ((p2Fold_spec e o BLOCK_SIZE (pfs1Of e o) (pfsAfterAdds e o).2
      e.contents.length).2.2.2.2.1 m (by omega)).2
  have hmf : (metaFinal e o).dataIdx = e.contents.length := metaFinal_dataIdx e o hmB
  have hB : (pfsAfterXml e o).entries.getD m default
      = (p2Of e o).pfs.entries.getD m default := by
    unfold pfsAfterXml
    exact pfsRename_getD_ne _ _ _ _ (by rw [hmf]; omega)
  have hC : (pfs2Of e o).entries.getD m default
      = (pfsAfterXml e o).entries.getD m default := by
    unfold pfs2Of gOf
    refine foldl_preserves_mem
      (P := fun st : PfsCtx × List UsbEvent =>
        st.1.entries.getD m default = (pfsAfterXml e o).entries.getD m default) _ ?_ _ rfl
    intro st i hi hst
    have hilt : i < e.contents.length - 1 := List.mem_range.mp hi
    show (ctxDataSendOne ((p2Of e o).ctxs.getD i defaultCtx) st).1.entries.getD m default = _
    rw [ctxDataSendOne_tail _ st (pfsAfterAdds e o).1.entries.length m hm
      (gSlot_bound e o hmB i hilt)]
    exact hst
  rw [hC, hB, hA]

/-- Indexing the last two appended entries. -/
theorem getD_append_two {α : Type u} (l : List α) (a b d : α) :
    (l ++ [a, b]).getD l.length d = a ∧ (l ++ [a, b]).getD (l.length + 1) d = b := by
  have h : l ++ [a, b] = (l ++ [a]) ++ [b] := by simp
  constructor
  · rw [h, List.getD_append _ _ _ _ (by simp)]
    exact getD_append_self l a d
  · rw [h, show l.length + 1 = (l ++ [a]).length by simp]
    exact getD_append_self (l ++ [a]) b d

/-- The entry table right before the ticket and certificate entries, in
closed form. -/
theorem pfsAfterAdds_entries (e : Env) (o : Opts) (h : hasMetaB e = true) :
    (pfsAfterAdds e o).1.entries
      = (buildCtxs e o).map ncaEntryOf
        ++ [⟨((buildCtxs e o).getD (e.contents.length - 1) defaultCtx).idStr, ".cnmt.xml",
            (xml1Of e o).length⟩]
        ++ ((List.range (e.contents.length - 1)).map
            (fun i => ctxDataEntries ((buildCtxs e o).getD i defaultCtx))).flatten := by
  have hL : (buildCtxs e o).length = e.contents.length := buildCtxs_length e o h
  have h1 : (addNcaEntries (buildCtxs e o) pfsInit).entries
      = (buildCtxs e o).map ncaEntryOf := by
    rw [addNcaEntries_entries]
    rfl
  obtain ⟨h2a, h2b⟩ := addXmlEntry_spec (xml1Of e o) (buildCtxs e o)
    (addNcaEntries (buildCtxs e o) pfsInit)
  have h3 := addCtxData_range_spec
    (addXmlEntry (xml1Of e o) (buildCtxs e o) (addNcaEntries (buildCtxs e o) pfsInit)).1
    (addXmlEntry (xml1Of e o) (buildCtxs e o) (addNcaEntries (buildCtxs e o) pfsInit)).2
    (e.contents.length - 1)
  have h4 : ∀ i, i < e.contents.length - 1 →
      ((addXmlEntry (xml1Of e o) (buildCtxs e o)
        (addNcaEntries (buildCtxs e o) pfsInit)).2).getD i defaultCtx
        = (buildCtxs e o).getD i defaultCtx := by
    intro i hi
    rw [h2b, hL]
    exact getD_set_ne _ _ _ _ _ (by omega)
  have hmap : (List.range (e.contents.length - 1)).map
        (fun i => ctxDataEntries (((addXmlEntry (xml1Of e o) (buildCtxs e o)
          (addNcaEntries (buildCtxs e o) pfsInit)).2).getD i defaultCtx))
      = (List.range (e.contents.length - 1)).map
        (fun i => ctxDataEntries ((buildCtxs e o).getD i defaultCtx)) := by
    refine List.map_congr_left ?_
    intro i hi
    rw [h4 i (List.mem_range.mp hi)]
  show ((addCtxDataEntries e.contents.length _).1.entries) = _
  unfold addCtxDataEntries
  rw [h3.1, hmap, h2a, h1, hL]

/-- No entry produced before the ticket and certificate entries carries the
`.tik` or `.cert` extension. -/
theorem pfsAfterAdds_noTC (e : Env) (o : Opts) (hm : hasMetaB e = true) :
    ∀ en ∈ (pfsAfterAdds e o).1.entries, en.sfx ≠ ".tik" ∧ en.sfx ≠ ".cert" := by
  intro en hen
  rw [pfsAfterAdds_entries e o hm] at hen
  rcases List.mem_append.mp hen with hen | hen
  · rcases List.mem_append.mp hen with hen | hen
    · rcases List.mem_map.mp hen with ⟨ctx, _, hc⟩
      rw [← hc]
      exact ncaSfx_ne ctx.ctype
    · rw [List.mem_singleton.mp hen]
      constructor
      · show (".cnmt.xml" : String) ≠ ".tik"
        decide
      · show (".cnmt.xml" : String) ≠ ".cert"
        decide
  · rcases List.mem_flatten.mp hen with ⟨l, hl, hen⟩
    rcases List.mem_map.mp hl with ⟨i, _, hli⟩
    rw [← hli] at hen
    unfold ctxDataEntries at hen
    rcases hm2 : ((buildCtxs e o).getD i defaultCtx).typeCtx with _ | tc
    · rw [hm2] at hen
      simp at hen
    · rw [hm2] at hen
      cases tc with
      | cnmt => simp at hen
      | program xml p =>
        rw [List.mem_singleton.mp hen]
        constructor
        · show (".programinfo.xml" : String) ≠ ".tik"
          decide
        · show (".programinfo.xml" : String) ≠ ".cert"
          decide
      | legal xml =>
        rw [List.mem_singleton.mp hen]
        constructor
        · show (".legalinfo.xml" : String) ≠ ".tik"
          decide
        · show (".legalinfo.xml" : String) ≠ ".cert"
          decide
      | control icons xml =>
        rcases List.mem_append.mp hen with hen | hen
        · rcases List.mem_map.mp hen with ⟨ic, _, hic⟩
          rw [← hic]
          have e1 : (".nx." : String).length = 4 := rfl
          have e2 : (".jpg" : String).length = 4 := rfl
          have e3 : (".tik" : String).length = 4 := rfl
          have e4 : (".cert" : String).length = 5 := rfl
          constructor
          · intro hc
            have h2 := congrArg String.length hc
            rw [String.length_append, String.length_append] at h2
            omega
          · intro hc
            have h2 := congrArg String.length hc
            rw [String.length_append, String.length_append] at h2
            omega
        · rw [List.mem_singleton.mp hen]
          constructor
          · show (".nacp.xml" : String) ≠ ".tik"
            decide
          · show (".nacp.xml" : String) ≠ ".cert"
            decide

theorem envB_wf : EnvWF envB := by
  refine ⟨fun bs => rfl, fun i => ?_, by decide, fun t => rfl, by unfold oneMeta; decide⟩
  show ((if i = 0 then _ else _ : NcaInit)).id0.length = 32
  split <;> decide

/-- C6: when credentials are resolved (`retrieve_tik_cert` true): with
"remove console data" set and a personalized ticket, the ticket is converted
to a common ticket and the certificate chain is the one freshly generated by
that conversion; otherwise the ticket is kept as is and a raw chain is
fetched from the gamecard by rights id for gamecard titles, else generated
by signature issuer.  The resulting ticket and certificate blobs are exactly
two entries — named by the ticket's rights id with extensions `.tik` and
`.cert` and sized by the two blobs — and they are the last two entries of
both the provisional and the finalized table (no earlier entry carries
either extension). -/
theorem nsp_tik_cert_resolution_and_last_two (e : Env) (o : Opts) (hwf : EnvWF e)
    (hok : (nspDump e o).ok = true) (hr : (nspDump e o).retrieve = true) :
    ((o.removeConsoleData && e.tik.personalized) = true →
      ((nspDump e o).tikFinal, (nspDump e o).certChain) = e.convert e.tik) ∧
    ((o.removeConsoleData && e.tik.personalized) = false →
      (nspDump e o).tikFinal = e.tik ∧
      (nspDump e o).certChain = (match e.storage with
        | .gameCard => e.certGC e.tik.rightsIdStr
        | _ => e.certIssuer e.tik.issuer)) ∧
    2 ≤ (nspDump e o).pfs1.entries.length ∧
    (nspDump e o).pfs2.entries.length = (nspDump e o).pfs1.entries.length ∧
    (nspDump e o).pfs1.entries.getD ((nspDump e o).pfs1.entries.length - 2) default
      = ⟨(nspDump e o).tikFinal.rightsIdStr, ".tik", (nspDump e o).tikFinal.data.length⟩ ∧
    (nspDump e o).pfs1.entries.getD ((nspDump e o).pfs1.entries.length - 1) default
      = ⟨(nspDump e o).tikFinal.rightsIdStr, ".cert", (nspDump e o).certChain.length⟩ ∧
    (nspDump e o).pfs2.entries.getD ((nspDump e o).pfs2.entries.length - 2) default
      = ⟨(nspDump e o).tikFinal.rightsIdStr, ".tik", (nspDump e o).tikFinal.data.length⟩ ∧
    (nspDump e o).pfs2.entries.getD ((nspDump e o).pfs2.entries.length - 1) default
      = ⟨(nspDump e o).tikFinal.rightsIdStr, ".cert", (nspDump e o).certChain.length⟩ ∧
    (∀ j, j < (nspDump e o).pfs1.entries.length - 2 →
      ((nspDump e o).pfs1.entries.getD j default).sfx ≠ ".tik" ∧
      ((nspDump e o).pfs1.entries.getD j default).sfx ≠ ".cert") ∧
    (∀ j, j < (nspDump e o).pfs2.entries.length - 2 →
      ((nspDump e o).pfs2.entries.getD j default).sfx ≠ ".tik" ∧
      ((nspDump e o).pfs2.entries.getD j default).sfx ≠ ".cert") := by
  obtain ⟨h1, h2, h3, h4, h5, h6, h7, h8, h9, h10, h11, h12, h13, h14, h15, h16, h17⟩ :=
    nspDump_ok_fields e o hok
  have hm : hasMetaB e = true := ((nspDump_ok_iff e o).1 hok).2.1
  have hrE : retrieveOf e o = true := by
    rw [← h5]
    exact hr
  have hE : (pfs1Of e o).entries
      = (pfsAfterAdds e o).1.entries
        ++ [⟨(rcOf e o).1.rightsIdStr, ".tik", (rcOf e o).1.data.length⟩,
            ⟨(rcOf e o).1.rightsIdStr, ".cert", (rcOf e o).2.length⟩] := by
    show (addTikCert (retrieveOf e o) (rcOf e o).1 (rcOf e o).2
      (pfsAfterAdds e o).1).entries = _
    rw [addTikCert_entries, hrE, if_pos rfl]
  have hlen1 : (pfs1Of e o).entries.length = (pfsAfterAdds e o).1.entries.length + 2 := by
    rw [hE]
    simp
  have hlen2 : (pfs2Of e o).entries.length = (pfs1Of e o).entries.length :=
    (pfs2Of_shape e o).2.2
  have hgd := getD_append_two (pfsAfterAdds e o).1.entries
    ⟨(rcOf e o).1.rightsIdStr, ".tik", (rcOf e o).1.data.length⟩
    ⟨(rcOf e o).1.rightsIdStr, ".cert", (rcOf e o).2.length⟩ (default : PfsEntry)
  have hB3 : (pfs1Of e o).entries.getD ((pfs1Of e o).entries.length - 2) default
      = ⟨(rcOf e o).1.rightsIdStr, ".tik", (rcOf e o).1.data.length⟩ := by
    rw [hlen1, Nat.add_sub_cancel, hE]
    exact hgd.1
  have hB4 : (pfs1Of e o).entries.getD ((pfs1Of e o).entries.length - 1) default
      = ⟨(rcOf e o).1.rightsIdStr, ".cert", (rcOf e o).2.length⟩ := by
    rw [hlen1, show (pfsAfterAdds e o).1.entries.length + 2 - 1
      = (pfsAfterAdds e o).1.entries.length + 1 by omega, hE]
    exact hgd.2
  have hB5 : (pfs2Of e o).entries.getD ((pfs2Of e o).entries.length - 2) default
      = ⟨(rcOf e o).1.rightsIdStr, ".tik", (rcOf e o).1.data.length⟩ := by
    rw [hlen2, hlen1, Nat.add_sub_cancel,
      pfs2Of_getD_tail e o hwf _ (Nat.le_refl _), hE]
    exact hgd.1
  have hB6 : (pfs2Of e o).entries.getD ((pfs2Of e o).entries.length - 1) default
      = ⟨(rcOf e o).1.rightsIdStr, ".cert", (rcOf e o).2.length⟩ := by
    rw [hlen2, hlen1, show (pfsAfterAdds e o).1.entries.length + 2 - 1
      = (pfsAfterAdds e o).1.entries.length + 1 by omega,
      pfs2Of_getD_tail e o hwf _ (by omega), hE]
    exact hgd.2
  have hB7 : ∀ j, j < (pfs1Of e o).entries.length - 2 →
      ((pfs1Of e o).entries.getD j default).sfx ≠ ".tik" ∧
      ((pfs1Of e o).entries.getD j default).sfx ≠ ".cert" := by
    intro j hj
    rw [hlen1, Nat.add_sub_cancel] at hj
    rw [hE, List.getD_append _ _ _ _ hj]
    refine pfsAfterAdds_noTC e o hm _ ?_
    rw [List.getD_eq_getElem _ _ hj]
    exact List.getElem_mem hj
  have hB8 : ∀ j, j < (pfs2Of e o).entries.length - 2 →
      ((pfs2Of e o).entries.getD j default).sfx ≠ ".tik" ∧
      ((pfs2Of e o).entries.getD j default).sfx ≠ ".cert" := by
    intro j hj
    have hsfx : ((pfs2Of e o).entries.getD j default).sfx
        = ((pfs1Of e o).entries.getD j default).sfx :=
      congrArg Prod.fst (getD_shape_eq (pfs1Of e o) (pfs2Of e o) (pfs2Of_shape e o).1 j)
    rw [hsfx]
    refine hB7 j ?_
    rw [← hlen2]
    exact hj
  refine ⟨?_, ?_, ?_, ?_, ?_, ?_, ?_, ?_, ?_, ?_⟩
  · intro hb
    rw [h6, h7]
    simp [rcOf, resolveCert, hrE, hb]
  · intro hb
    constructor
    · rw [h6]
      simp [rcOf, resolveCert, hrE, hb]
    · rw [h7]
      simp [rcOf, resolveCert, hrE, hb]
  · rw [h1, hlen1]
    omega
  · rw [h1, h14]
    exact hlen2
  · rw [h1, h6]
    exact hB3
  · rw [h1, h6, h7]
    exact hB4
  · rw [h14, h6]
    exact hB5
  · rw [h14, h6, h7]
    exact hB6
  · rw [h1]
    exact hB7
  · rw [h14]
    exact hB8

/-- Witness for C6 at the concrete title with a personalized ticket. -/
theorem nsp_tik_cert_resolution_and_last_two_witness :
    EnvWF envB ∧ (nspDump envB opts0).ok = true ∧ (nspDump envB opts0).retrieve = true ∧
      (nspDump envB opts0).pfs1.entries.getD
          ((nspDump envB opts0).pfs1.entries.length - 2) default
        = ⟨(nspDump envB opts0).tikFinal.rightsIdStr, ".tik",
            (nspDump envB opts0).tikFinal.data.length⟩ :=
  ⟨envB_wf, by decide, by decide,
    (nsp_tik_cert_resolution_and_last_two envB opts0 envB_wf (by decide)
      (by decide)).2.2.2.2.1⟩

/-! ### The default two-content scenario -/

theorem mkCtx_size (e : Env) (o : Opts) (i : Nat) (ct : ContentType) :
    (mkCtx e o i ct).size = (e.initNca i).size := by
  unfold mkCtx
  dsimp only
  split
  · rfl
  · rfl

theorem metaAdjust_size (c : NcaCtx) : (metaAdjust c).size = c.size := by
  unfold metaAdjust
  split
  · rfl
  · rfl

/-- The pass-1 context of an unskipped program content, spelled out. -/
theorem mkCtx_program (e : Env) (o : Opts) (i : Nat)
    (h : skipNca (e.initNca i) = false) :
    mkCtx e o i .Program
      = { ctype := .Program, idStr := (e.initNca i).id0, size := (e.initNca i).size,
          rightsAvail := (e.initNca i).rightsAvail,
          tkRetrieved := (e.initNca i).tkRetrieved,
          read := (e.initNca i).read, writeHeader := (e.initNca i).writeHeader,
          processed := true, headerModified := true,
          typeCtx := some (.program (e.programXml i) (e.programPatch i)),
          patchFlag := o.changeAcidRsa, dataIdx := 0 } := by
  unfold mkCtx
  dsimp only
  rw [if_neg (by rw [h]; exact Bool.false_ne_true)]

/-- The ctx-data send step of a slot holding a program-info context. -/
theorem ctxDataSendOne_program (ctx : NcaCtx) (st : PfsCtx × List UsbEvent)
    (xml : List Byte) (p : Nat → List Byte → List Byte)
    (h : ctx.typeCtx = some (.program xml p)) :
    ctxDataSendOne ctx st = ctxDataSend1 st ctx.dataIdx xml ctx.idStr := by
  unfold ctxDataSendOne
  rw [h]

/-- A two-element list is its first two indexed elements. -/
theorem list_len_two {α : Type u} (l : List α) (d : α) (h : l.length = 2) :
    l = [l.getD 0 d, l.getD 1 d] := by
  cases l with
  | nil => simp at h
  | cons a t =>
    cases t with
    | nil => simp at h
    | cons b t2 =>
      cases t2 with
      | nil => rfl
      | cons c t3 => simp at h

/-- One content unit's transport events contain no header send. -/
theorem unitTrace_no_header (u : UnitResult) :
    (unitTrace u).countP
      (fun ev => match ev with | .sendNspHeader _ => true | _ => false) = 0 := by
  unfold unitTrace
  rw [List.countP_cons]
  simp only [List.countP_map]
  rw [show ((fun ev => match ev with | .sendNspHeader _ => true | _ => false)
      ∘ UsbEvent.sendData) = (fun _ => false) from rfl]
  simp

/-- C5 counterexample: for the default two-content title (one program, one
meta, default options) the finalized entry table has FOUR entries, the
fourth being the program's `.programinfo.xml` — not the three entries
`{program.nca, meta.cnmt.nca, meta.cnmt.xml}` the specification claims: an
unskipped program content always carries a program-info context whose xml is
added to the table (lines 227-253 and 364-378). -/
theorem nsp_default_two_unit_table_counterexample :
    (nspDump envA opts0).pfs2.entries.length = 4 ∧
    ((nspDump envA opts0).pfs2.entries.getD 0 default).sfx = ".nca" ∧
    ((nspDump envA opts0).pfs2.entries.getD 1 default).sfx = ".cnmt.nca" ∧
    ((nspDump envA opts0).pfs2.entries.getD 2 default).sfx = ".cnmt.xml" ∧
    ((nspDump envA opts0).pfs2.entries.getD 3 default).sfx = ".programinfo.xml" ∧
    ¬ (nspDump envA opts0).pfs2.entries.length = 3 := by
  decide

/-- C5 (amended): for a title with exactly one program content and one meta
content (listed in that order), the program accessible, no ticket material
and any options, a completed run produces the four-entry table
`[program.nca, meta.cnmt.nca, meta.cnmt.xml, program.programinfo.xml]` in
that order (same shape in the provisional and finalized header); the
announced total equals header size plus the payload sum; pass 2 streams
exactly the two content units, announcing `<id>.nca` and `<id>.cnmt.nca`
with their content sizes; and the transport receives the announce/send
pairs in exactly that order — the two unit streams, the cnmt xml, the
program-info xml — followed by exactly one header re-send. -/
theorem nsp_default_two_unit_table (e : Env) (o : Opts)
    (hc : e.contents = [⟨.Program⟩, ⟨.Meta⟩])
    (hskip : skipNca (e.initNca 0) = false)
    (htik : e.tik.data = [])
    (hok : (nspDump e o).ok = true) :
    pfsShape (nspDump e o).pfs1
      = [(".nca", (e.initNca 0).size), (".cnmt.nca", (e.initNca 1).size),
         (".cnmt.xml", (xml1Of e o).length), (".programinfo.xml", (e.programXml 0).length)] ∧
    pfsShape (nspDump e o).pfs2 = pfsShape (nspDump e o).pfs1 ∧
    (nspDump e o).nspSize
      = (nspDump e o).headerSize1
        + ((e.initNca 0).size + (e.initNca 1).size + (xml1Of e o).length
          + (e.programXml 0).length) ∧
    (nspDump e o).units.length = 2 ∧
    ((nspDump e o).units.getD 0 default).announcedName = (e.initNca 0).id0 ++ ".nca" ∧
    ((nspDump e o).units.getD 0 default).announcedSize = (e.initNca 0).size ∧
    ((nspDump e o).units.getD 1 default).announcedName = (e.initNca 1).id0 ++ ".cnmt.nca" ∧
    ((nspDump e o).units.getD 1 default).announcedSize = (e.initNca 1).size ∧
    (nspDump e o).trace
      = .announceNsp e.path (nspDump e o).nspSize (nspDump e o).headerSize1
          :: (unitTrace ((nspDump e o).units.getD 0 default)
            ++ unitTrace ((nspDump e o).units.getD 1 default)
            ++ [.announceFile (pfsEntryNameAt (p2Of e o).pfs 2) (xml2Of e o).length,
                .sendData (xml2Of e o)]
            ++ [.announceFile (pfsEntryNameAt (pfsAfterXml e o) 3) (e.programXml 0).length,
                .sendData (e.programXml 0)]
            ++ [.sendNspHeader (nspDump e o).headerSize2]) ∧
    (nspDump e o).trace.countP
      (fun ev => match ev with | .sendNspHeader _ => true | _ => false) = 1 := by
  obtain ⟨h1, h2, h3, h4, h5, h6, h7, h8, h9, h10, h11, h12, h13, h14, h15, h16, h17⟩ :=
    nspDump_ok_fields e o hok
  have hm : hasMetaB e = true := by
    unfold hasMetaB
    rw [hc]
    decide
  have hone : oneMeta e := by
    unfold oneMeta
    rw [hc]
    decide
  have hcl : e.contents.length = 2 := by
    rw [hc]
    rfl
  have hnm : nonMetas e = [(0, ContentType.Program)] := by
    unfold nonMetas
    rw [hc]
    decide
  have hmi : metaIdx e = 1 := by
    unfold metaIdx
    rw [hc]
    decide
  have hb : buildCtxs e o = [mkCtx e o 0 .Program, mkMetaCtx e] := by
    rw [(buildCtxs_oneMeta e o hone).1, hnm]
    rfl
  have hr : retrieveOf e o = false := by
    unfold retrieveOf
    rw [htik]
    simp
  have hmk := mkCtx_program e o 0 hskip
  have hmeta : mkMetaCtx e
      = { ctype := .Meta, idStr := (e.initNca 1).id0, size := (e.initNca 1).size,
          rightsAvail := (e.initNca 1).rightsAvail,
          tkRetrieved := (e.initNca 1).tkRetrieved,
          read := (e.initNca 1).read, writeHeader := (e.initNca 1).writeHeader,
          processed := true, headerModified := false, typeCtx := some .cnmt,
          patchFlag := false, dataIdx := 0 } := by
    unfold mkMetaCtx
    rw [hmi]
  have hent : (pfs1Of e o).entries
      = [⟨(e.initNca 0).id0, ".nca", (e.initNca 0).size⟩,
         ⟨(e.initNca 1).id0, ".cnmt.nca", (e.initNca 1).size⟩,
         ⟨(e.initNca 1).id0, ".cnmt.xml", (xml1Of e o).length⟩,
         ⟨(e.initNca 0).id0, ".programinfo.xml", (e.programXml 0).length⟩] := by
    rw [pfs1Of_entries e o hm, hr, hb, hcl, hmk, hmeta]
    rfl
  have hshape1 : pfsShape (pfs1Of e o)
      = [(".nca", (e.initNca 0).size), (".cnmt.nca", (e.initNca 1).size),
         (".cnmt.xml", (xml1Of e o).length),
         (".programinfo.xml", (e.programXml 0).length)] := by
    unfold pfsShape
    rw [hent]
    rfl
  have hfs : (pfs1Of e o).fs_size
      = (e.initNca 0).size + (e.initNca 1).size + (xml1Of e o).length
        + (e.programXml 0).length := by
    have h0 := pfs1Of_fsOK e o
    unfold fsOK at h0
    rw [hent] at h0
    rw [h0]
    simp
    omega
  have hu2 : (p2Of e o).units.length = 2 := by
    show (p2Fold e o BLOCK_SIZE (pfs1Of e o) (pfsAfterAdds e o).2
      e.contents.length).units.length = 2
    rw [(p2Fold_spec e o BLOCK_SIZE (pfs1Of e o) (pfsAfterAdds e o).2
      e.contents.length).1, hcl]
  have hxlen : (pfsAfterAdds e o).2.length = e.contents.length :=
    pfsAfterAdds_ctxs_length e o hm
  have hx0 : (pfsAfterAdds e o).2.getD 0 defaultCtx
      = ctxDataAdjust (mkCtx e o 0 .Program) 3 := by
    rw [ctxs1_getD_lt e o hm 0 (by rw [hcl]; omega), hb, hcl]
    rfl
  have hx0f : (pfsAfterAdds e o).2.getD 0 defaultCtx
      = { ctype := .Program, idStr := (e.initNca 0).id0, size := (e.initNca 0).size,
          rightsAvail := (e.initNca 0).rightsAvail,
          tkRetrieved := (e.initNca 0).tkRetrieved,
          read := (e.initNca 0).read, writeHeader := (e.initNca 0).writeHeader,
          processed := true, headerModified := true,
          typeCtx := some (.program (e.programXml 0) (e.programPatch 0)),
          patchFlag := o.changeAcidRsa, dataIdx := 3 } := by
    rw [hx0, hmk]
    rfl
  have hx1f : (pfsAfterAdds e o).2.getD 1 defaultCtx
      = { ctype := .Meta, idStr := (e.initNca 1).id0, size := (e.initNca 1).size,
          rightsAvail := (e.initNca 1).rightsAvail,
          tkRetrieved := (e.initNca 1).tkRetrieved,
          read := (e.initNca 1).read, writeHeader := (e.initNca 1).writeHeader,
          processed := true, headerModified := false, typeCtx := some .cnmt,
          patchFlag := false, dataIdx := 2 } := by
    have h := ctxs1_getD_meta e o hm
    rw [hb, hcl, hmeta] at h
    exact h
  have hma0 : metaAdjust ((pfsAfterAdds e o).2.getD 0 defaultCtx)
      = (pfsAfterAdds e o).2.getD 0 defaultCtx := by
    rw [hx0f]
    rfl
  have h60 := ((p2Fold_spec e o BLOCK_SIZE (pfs1Of e o) (pfsAfterAdds e o).2
      e.contents.length).2.2.2.2.2 0 (by rw [hcl]; omega)).1
  have h60c := ((p2Fold_spec e o BLOCK_SIZE (pfs1Of e o) (pfsAfterAdds e o).2
      e.contents.length).2.2.2.2.2 0 (by rw [hcl]; omega)).2 (by rw [hxlen, hcl]; omega)
  have h61 := ((p2Fold_spec e o BLOCK_SIZE (pfs1Of e o) (pfsAfterAdds e o).2
      e.contents.length).2.2.2.2.2 1 (by rw [hcl]; omega)).1
  have hT : ((p2Of e o).ctxs.getD 0 defaultCtx).typeCtx
      = some (.program (e.programXml 0) (e.programPatch 0)) := by
    show ((p2Fold e o BLOCK_SIZE (pfs1Of e o) (pfsAfterAdds e o).2
      e.contents.length).ctxs.getD 0 defaultCtx).typeCtx = _
    rw [h60c]
    show (metaAdjust ((pfsAfterAdds e o).2.getD 0 defaultCtx)).typeCtx = _
    rw [hma0, hx0f]
  have hD3 : ((p2Of e o).ctxs.getD 0 defaultCtx).dataIdx = 3 := by
    show ((p2Fold e o BLOCK_SIZE (pfs1Of e o) (pfsAfterAdds e o).2
      e.contents.length).ctxs.getD 0 defaultCtx).dataIdx = 3
    rw [h60c]
    show (metaAdjust ((pfsAfterAdds e o).2.getD 0 defaultCtx)).dataIdx = 3
    rw [hma0, hx0f]
  have hg : gOf e o
      = ctxDataSendOne ((p2Of e o).ctxs.getD 0 defaultCtx) (pfsAfterXml e o, []) := by
    unfold gOf
    rw [hcl]
    rfl
  have hg2 : (gOf e o).2
      = [.announceFile (pfsEntryNameAt (pfsAfterXml e o) 3) (e.programXml 0).length,
         .sendData (e.programXml 0)] := by
    rw [hg, ctxDataSendOne_program _ _ _ _ hT, hD3]
    rfl
  have hxt : xmlTraceOf e o
      = [.announceFile (pfsEntryNameAt (p2Of e o).pfs 2) (xml2Of e o).length,
          .sendData (xml2Of e o)] := by
    unfold xmlTraceOf
    rw [metaFinal_dataIdx e o hm, hcl]
  have htt : tikTraceOf e o = [] := by
    unfold tikTraceOf
    rw [hr]
    rfl
  have hud : (p2Of e o).units
      = [(p2Of e o).units.getD 0 default, (p2Of e o).units.getD 1 default] :=
    list_len_two _ _ hu2
  have hflat : ((p2Of e o).units.map unitTrace).flatten
      = unitTrace ((p2Of e o).units.getD 0 default)
        ++ unitTrace ((p2Of e o).units.getD 1 default) := by
    conv_lhs => rw [hud]
    simp
  have hn0 : ((p2Of e o).units.getD 0 default).announcedName
      = (e.initNca 0).id0 ++ ".nca" := by
    show ((p2Fold e o BLOCK_SIZE (pfs1Of e o) (pfsAfterAdds e o).2
      e.contents.length).units.getD 0 default).announcedName = _
    rw [h60]
    show entryName ((pfs1Of e o).entries.getD 0 default) = _
    rw [hent]
    rfl
  have hsz0 : ((p2Of e o).units.getD 0 default).announcedSize = (e.initNca 0).size := by
    show ((p2Fold e o BLOCK_SIZE (pfs1Of e o) (pfsAfterAdds e o).2
      e.contents.length).units.getD 0 default).announcedSize = _
    rw [h60]
    show (metaAdjust ((pfsAfterAdds e o).2.getD 0 defaultCtx)).size = _
    rw [metaAdjust_size, hx0f]
  have hn1 : ((p2Of e o).units.getD 1 default).announcedName
      = (e.initNca 1).id0 ++ ".cnmt.nca" := by
    show ((p2Fold e o BLOCK_SIZE (pfs1Of e o) (pfsAfterAdds e o).2
      e.contents.length).units.getD 1 default).announcedName = _
    rw [h61]
    show entryName ((pfs1Of e o).entries.getD 1 default) = _
    rw [hent]
    rfl
  have hsz1 : ((p2Of e o).units.getD 1 default).announcedSize = (e.initNca 1).size := by
    show ((p2Fold e o BLOCK_SIZE (pfs1Of e o) (pfsAfterAdds e o).2
      e.contents.length).units.getD 1 default).announcedSize = _
    rw [h61]
    show (metaAdjust ((pfsAfterAdds e o).2.getD 1 defaultCtx)).size = _
    rw [metaAdjust_size, hx1f]
  have htr : (nspDump e o).trace
      = .announceNsp e.path (nspDump e o).nspSize (nspDump e o).headerSize1
          :: (unitTrace ((nspDump e o).units.getD 0 default)
            ++ unitTrace ((nspDump e o).units.getD 1 default)
            ++ [.announceFile (pfsEntryNameAt (p2Of e o).pfs 2) (xml2Of e o).length,
                .sendData (xml2Of e o)]
            ++ [.announceFile (pfsEntryNameAt (pfsAfterXml e o) 3) (e.programXml 0).length,
                .sendData (e.programXml 0)]
            ++ [.sendNspHeader (nspDump e o).headerSize2]) := by
    rw [h16, h9, h8, h15, h10, hflat, hxt, hg2, htt]
    simp
  refine ⟨?_, ?_, ?_, ?_, ?_, ?_, ?_, ?_, htr, ?_⟩
  · rw [h1]
    exact hshape1
  · rw [h1, h14]
    exact (pfs2Of_shape e o).1
  · rw [h9, h8, hfs]
  · rw [h10]
    exact hu2
  · rw [h10]
    exact hn0
  · rw [h10]
    exact hsz0
  · rw [h10]
    exact hn1
  · rw [h10]
    exact hsz1
  · rw [htr]
    simp [List.countP_append, List.countP_cons, unitTrace_no_header]

/-- Witness for the amended C5 at the concrete two-content title. -/
theorem nsp_default_two_unit_table_witness :
    envA.contents = [⟨.Program⟩, ⟨.Meta⟩] ∧ skipNca (envA.initNca 0) = false ∧
      envA.tik.data = [] ∧ (nspDump envA opts0).ok = true ∧
      pfsShape (nspDump envA opts0).pfs1
        = [(".nca", (envA.initNca 0).size), (".cnmt.nca", (envA.initNca 1).size),
           (".cnmt.xml", (xml1Of envA opts0).length),
           (".programinfo.xml", (envA.programXml 0).length)] :=
  ⟨rfl, by decide, rfl, by decide,
    (nsp_default_two_unit_table envA opts0 rfl (by decide) rfl (by decide)).1⟩

end NspDump
